import Mathlib

/-!
Verification development for the tweet-vault ingestion pipeline.

Each definition below is a shallow embedding of a function of the
repository (the TypeScript file and symbol are named next to it).
External platform facilities (the WHATWG URL parser, the JavaScript
`Date` parser, the network, the random jitter) are passed in as
explicit function parameters, so the embedded code stays executable
and the theorems quantify over the environment.
-/

namespace TweetVault

/-! ### Text utilities — convex/tweetVaultLinks.ts -/

/-- Apostrophe character, part of the URL-legal set of `isUrlChar`
(written via its code point to keep the character set readable). -/
def apos : Char := Char.ofNat 39

/-- convex/tweetVaultLinks.ts `isUrlChar`:
regex test `/[A-Za-z0-9\-._~:\/?#@!$&()*+,;=%]/` together with the
apostrophe that appears in the middle of the class. -/
def isUrlChar (c : Char) : Bool :=
  (('A' ≤ c ∧ c ≤ 'Z') : Bool) || (('a' ≤ c ∧ c ≤ 'z') : Bool) ||
    (('0' ≤ c ∧ c ≤ '9') : Bool) ||
    c ∈ ['-', '.', '_', '~', ':', '/', '?', '#', '@', '!', '$', '&', apos,
      '(', ')', '*', '+', ',', ';', '=', '%']

/-- `chars[i-1] ?? ""` / `chars[i+1] ?? ""` followed by the regex test:
testing the empty string yields `false`, so a missing neighbour is not
URL-legal. -/
def isUrlCharOpt : Option Char → Bool
  | none => false
  | some c => isUrlChar c

/-- The body of the `for` loop of convex/tweetVaultLinks.ts
`normalizeUrlText` at index `i`: a line break is dropped when both
neighbours are URL-legal, turned into a space otherwise, and every
other character is copied. -/
def normalizeStep (chars : List Char) (i : Nat) : List Char :=
  match chars[i]? with
  | none => []
  | some c =>
    if c = '\n' ∨ c = '\r' then
      if isUrlCharOpt (if i = 0 then none else chars[i - 1]?) ∧
          isUrlCharOpt chars[i + 1]? then
        []
      else
        [' ']
    else
      [c]

/-- convex/tweetVaultLinks.ts `normalizeUrlText`: the index loop
`for (let i = 0; i < chars.length; i += 1)` accumulating `output`. -/
def normalizeUrlText (text : String) : String :=
  let chars := text.toList
  ⟨(List.range chars.length).flatMap (normalizeStep chars)⟩

/-- The per-character description of the line-break normalization used
by the specification: recursion carrying the immediately preceding
character; the immediately following character is the head of the
remaining input. -/
def normalizeLineBreaks : Option Char → List Char → List Char
  | _, [] => []
  | prev, c :: rest =>
    if c = '\n' ∨ c = '\r' then
      (if isUrlCharOpt prev ∧ isUrlCharOpt rest.head? then []
        else [' ']) ++ normalizeLineBreaks (some c) rest
    else
      c :: normalizeLineBreaks (some c) rest

/-! ### The regex scan `/https?:\/\/[^\s]+/g` -/

/-- JavaScript `\s` on the code points that occur in this code base
(ASCII whitespace; the Unicode space classes are never produced by the
pipeline's inputs). -/
def isJsSpace (c : Char) : Bool :=
  c = ' ' ∨ c = '\t' ∨ c = '\n' ∨ c = '\r' ∨
    c = Char.ofNat 11 ∨ c = Char.ofNat 12

/-- Attempt the literal `p` followed by `[^\s]+` at the start of `cs`;
the token must contain at least one non-space character after the
literal. Returns the matched token. -/
def tryLit (cs p : List Char) : Option (List Char) :=
  if cs.take p.length = p then
    let tok := (cs.drop p.length).takeWhile (fun c => ¬ isJsSpace c)
    if tok.isEmpty then none else some (p ++ tok)
  else none

/-- Attempt the regex `https?:\/\/[^\s]+` at the start of `cs`:
the alternative `https?` is greedy, so `https://` is tried before
`http://`. -/
def matchHttpAt (cs : List Char) : Option (List Char) :=
  match tryLit cs "https://".toList with
  | some tok => some tok
  | none => tryLit cs "http://".toList

theorem tryLit_length {cs p tok : List Char} (h : tryLit cs p = some tok) :
    0 < tok.length ∧ tok.length ≤ cs.length := by
  unfold tryLit at h
  by_cases hp : cs.take p.length = p
  · rw [if_pos hp] at h
    set tw := (cs.drop p.length).takeWhile (fun c => ¬ isJsSpace c) with htw
    by_cases he : tw.isEmpty
    · rw [if_pos he] at h; cases h
    · rw [if_neg he] at h
      cases h
      have hne : tw ≠ [] := by simpa [List.isEmpty_iff] using he
      have hpos : 0 < tw.length := List.length_pos.mpr hne
      have h1 : tw.length ≤ (cs.drop p.length).length := by
        rw [htw]; exact (List.takeWhile_sublist _).length_le
      have h2 : p.length ≤ cs.length := by
        have := congrArg List.length hp
        rw [List.length_take] at this
        omega
      rw [List.length_drop] at h1
      constructor
      · rw [List.length_append]; omega
      · rw [List.length_append]; omega
  · rw [if_neg hp] at h; cases h

theorem matchHttpAt_length {cs tok : List Char}
    (h : matchHttpAt cs = some tok) :
    0 < tok.length ∧ tok.length ≤ cs.length := by
  unfold matchHttpAt at h
  by_cases h1 : ∃ t, tryLit cs "https://".toList = some t
  · obtain ⟨t, ht⟩ := h1
    rw [ht] at h
    cases h
    exact tryLit_length ht
  · have hn : tryLit cs "https://".toList = none := by
      cases hx : tryLit cs "https://".toList with
      | none => rfl
      | some t => exact absurd ⟨t, hx⟩ h1
    rw [hn] at h
    exact tryLit_length h

/-- One pass of the global regex scan, with `fuel` bounding the number
of engine steps: the engine tries a match at each position, emits the
token and resumes after it on success, advances one character on
failure. Every step consumes at least one character
(`matchHttpAt_length`), so `fuel = cs.length` is enough. -/
def scanUrlsGo : Nat → List Char → List String
  | 0, _ => []
  | _, [] => []
  | fuel + 1, c :: rest =>
    match matchHttpAt (c :: rest) with
    | some tok => String.mk tok :: scanUrlsGo fuel ((c :: rest).drop tok.length)
    | none => scanUrlsGo fuel rest

/-- The global regex scan `text.match(/https?:\/\/[^\s]+/g) ?? []`. -/
def scanUrls (cs : List Char) : List String :=
  scanUrlsGo cs.length cs

/-- convex/tweetVaultLinks.ts `trimUrl`:
`url.replace(/[)\].,;!?]+$/g, "")` — the anchored greedy class removes
exactly the maximal trailing run of these characters. -/
def isTrimChar (c : Char) : Bool :=
  c ∈ [')', ']', '.', ',', ';', '!', '?']

/-- convex/tweetVaultLinks.ts `trimUrl`. -/
def trimUrl (url : String) : String :=
  ⟨url.toList.rdropWhile isTrimChar⟩

/-! ### Link candidates produced by the text scan of
convex/tweetVaultLinks.ts `extractUrlsFromTweetDoc` -/

/-- One entry of the `urls` array built by `extractUrlsFromTweetDoc`. -/
structure UrlEntity where
  url : String
  expanded_url : Option String := none
  display_url : Option String := none
  deriving Repr, DecidableEq

/-- The loop `for (const url of contentUrls)` of
convex/tweetVaultLinks.ts `extractUrlsFromTweetDoc`: each scanned token
is trimmed, an empty result is dropped, and a token already present
(by raw or expanded form) in the accumulated array is not added again.
`entityUrls` is the array prefilled from `raw_data.legacy.entities.urls`. -/
def extractUrlsFromTweetDoc (entityUrls : List UrlEntity) (content : String) :
    List UrlEntity :=
  let contentUrls := scanUrls (normalizeUrlText content).toList
  contentUrls.foldl
    (fun urls url =>
      let cleaned := trimUrl url
      if cleaned = "" then urls
      else if urls.any (fun u =>
          u.url = cleaned ∨ u.expanded_url = some cleaned) then urls
      else urls ++ [{ url := cleaned }])
    entityUrls

/-! ### Equivalence of the index-loop normalization with its
per-character description -/

theorem normalizeStep_range' (chars : List Char) :
    ∀ n i, chars.length = i + n →
      (List.range' i n).flatMap (normalizeStep chars) =
        normalizeLineBreaks (if i = 0 then none else chars[i - 1]?)
          (chars.drop i)
  | 0, i, h => by
    rw [List.drop_eq_nil_of_le (by omega)]
    simp [normalizeLineBreaks]
  | n + 1, i, h => by
    have hi : i < chars.length := by omega
    have hdrop : chars.drop i = chars[i] :: chars.drop (i + 1) :=
      List.drop_eq_getElem_cons hi
    have hget : chars[i]? = some chars[i] := List.getElem?_eq_getElem hi
    have hih := normalizeStep_range' chars n (i + 1) (by omega)
    have hhead : (chars.drop (i + 1)).head? = chars[i + 1]? :=
      List.head?_drop chars (i + 1)
    rw [show List.range' i (n + 1) = i :: List.range' (i + 1) n from
        List.range'_succ i n 1,
      List.flatMap_cons, hih, hdrop]
    by_cases hc : chars[i] = '\n' ∨ chars[i] = '\r'
    · simp only [normalizeStep, hget, normalizeLineBreaks, if_pos hc, hhead]
      simp [hget]
    · simp only [normalizeStep, hget, normalizeLineBreaks, if_neg hc]
      simp [hget]

/-- The index loop of `normalizeUrlText` computes exactly the
per-character line-break normalization. -/
theorem normalizeUrlText_eq (s : String) :
    normalizeUrlText s = ⟨normalizeLineBreaks none s.toList⟩ := by
  show (⟨(List.range s.toList.length).flatMap (normalizeStep s.toList)⟩ :
      String) = _
  rw [List.range_eq_range']
  rw [normalizeStep_range' s.toList s.toList.length 0 (by omega)]
  simp

theorem normalizeLineBreaks_id (l : List Char)
    (h : ∀ c ∈ l, c ≠ '\n' ∧ c ≠ '\r') :
    ∀ prev, normalizeLineBreaks prev l = l := by
  induction l with
  | nil => intro prev; rfl
  | cons c rest ih =>
    intro prev
    have hc := h c (by simp)
    rw [normalizeLineBreaks, if_neg (by tauto)]
    rw [ih (fun x hx => h x (by simp [hx])) (some c)]

/-- C5: line-break normalization — each newline or carriage return is
replaced by a space, except that it is deleted when both the
immediately preceding and immediately following characters of the
original text are URL-legal (`isUrlChar`); consequently the example
text with a line-wrapped URL yields the single token
`https://ex.am/ple`. -/
theorem C5_normalize_linebreaks :
    (∀ s : String, normalizeUrlText s = ⟨normalizeLineBreaks none s.toList⟩) ∧
    extractUrlsFromTweetDoc [] "see https://ex.am/\nple for info" =
      [{ url := "https://ex.am/ple" }] :=
  ⟨normalizeUrlText_eq, rfl⟩

/-- C6 (counterexample): a trailing ellipsis character is NOT in the
character class of `trimUrl` (`/[)\].,;!?]+$/`), so a scanned token
that ends in an ellipsis keeps it, contradicting the claim that an
ellipsis is trimmed before the token becomes a Link candidate. -/
theorem C6_counterexample :
    trimUrl "https://x.test…" = "https://x.test…" ∧
    extractUrlsFromTweetDoc [] "read https://x.test…" =
      [{ url := "https://x.test…" }] ∧
    trimUrl "https://x.test…" ≠ "https://x.test" := by
  refine ⟨rfl, rfl, ?_⟩
  decide

/-- C6 (amended): trailing characters among `) ] . , ; ! ?` — not
including an ellipsis — are trimmed from the end of every scanned
token: the token splits into the trimmed result and a trailing run of
trim characters, and the result does not end in a trim character; in
particular text ending in `(https://x.test).` yields the candidate
`https://x.test`. -/
theorem C6_trimUrl_trailing :
    (∀ url : String,
      url.toList =
        (trimUrl url).toList ++
          (url.toList.reverse.takeWhile isTrimChar).reverse ∧
      (∀ c ∈ url.toList.reverse.takeWhile isTrimChar, isTrimChar c = true) ∧
      (∀ c, (trimUrl url).toList.getLast? = some c → isTrimChar c = false)) ∧
    extractUrlsFromTweetDoc [] "...check (https://x.test)." =
      [{ url := "https://x.test" }] := by
  refine ⟨fun url => ⟨?_, ?_, ?_⟩, rfl⟩
  · show url.toList = url.toList.rdropWhile isTrimChar ++ _
    rw [List.rdropWhile]
    rw [← List.reverse_append, List.takeWhile_append_dropWhile]
    rw [List.reverse_reverse]
  · intro c hc
    exact List.mem_takeWhile_imp hc
  · intro c hc
    have hc2 : ((url.toList.reverse.dropWhile isTrimChar).reverse).getLast? =
        some c := hc
    rw [List.getLast?_reverse] at hc2
    have h3 := List.head?_dropWhile_not isTrimChar url.toList.reverse
    rw [hc2] at h3
    simpa using h3

/-- Witness for `C6_trimUrl_trailing` at the concrete token
`https://a.b).`. -/
theorem C6_trimUrl_trailing_witness :
    isTrimChar ')' = true ∧ isTrimChar 'b' = false :=
  ⟨(C6_trimUrl_trailing.1 "https://a.b).").2.1 ')' (by decide),
    (C6_trimUrl_trailing.1 "https://a.b).").2.2 'b' (by decide)⟩

/-- C10: on text containing no newline and no carriage return,
`normalizeUrlText` is the identity, so the URL scan of the normalized
text coincides with the plain regex scan of the original content. -/
theorem C10_normalize_id_on_linebreak_free (s : String)
    (h : ∀ c ∈ s.toList, c ≠ '\n' ∧ c ≠ '\r') :
    normalizeUrlText s = s ∧
      scanUrls (normalizeUrlText s).toList = scanUrls s.toList := by
  have h1 : normalizeUrlText s = s := by
    rw [normalizeUrlText_eq, normalizeLineBreaks_id s.toList h none]
    cases s
    rfl
  exact ⟨h1, by rw [h1]⟩

/-- Witness for `C10_normalize_id_on_linebreak_free` at a concrete
line-break-free text. -/
theorem C10_normalize_id_witness :
    normalizeUrlText "check https://x.test now" =
      "check https://x.test now" :=
  (C10_normalize_id_on_linebreak_free "check https://x.test now"
    (by decide)).1

/-! ### JSON values and the two input schemas — src/src/process/tweets.ts

Input items are opaque JSON (`unknown`); the two Zod schemas
`ExportedTweetSchema` and `TweetDataSchema` are embedded as parsers
over a JSON value type. Numeric fields are integers (the schemas only
carry counters). JavaScript `Date` parsing is an explicit parameter
`dateParse : String → Option String`: `dateParse s = some iso` models a
valid `new Date(s)` whose `toISOString()` returns `iso`, and `none`
models an invalid date (on which `toISOString()` throws a RangeError).
-/

inductive Json where
  | null : Json
  | bool (b : Bool) : Json
  | num (n : Int) : Json
  | str (s : String) : Json
  | arr (items : List Json) : Json
  | obj (fields : List (String × Json)) : Json

/-- JavaScript property access on a parsed JSON value: `none` when the
value is not an object or lacks the key. -/
def Json.getField : Json → String → Option Json
  | .obj fields, key => fields.lookup key
  | _, _ => none

/-- `z.string()` on a field: required, must be present and a string. -/
def zString : Option Json → Option String
  | some (.str s) => some s
  | _ => none

/-- `z.string().optional()` on a field: absent is fine, a present value
must be a string (`null` is not accepted by `optional`). -/
def zOptString : Option Json → Option (Option String)
  | none => some none
  | some (.str s) => some (some s)
  | some _ => none

/-- `z.number().optional()` on a field. -/
def zOptNum : Option Json → Option (Option Int)
  | none => some none
  | some (.num n) => some (some n)
  | some _ => none

/-- `z.array(elem).optional()` on a field. -/
def zOptArray (elem : Json → Option α) : Option Json → Option (Option (List α))
  | none => some none
  | some (.arr xs) => (xs.mapM elem).map some
  | some _ => none

/-- An element of the `urls` arrays of both schemas:
`{ url, expanded_url?, display_url? }`. -/
def zUrlEntity (j : Json) : Option UrlEntity := do
  let url ← zString (j.getField "url")
  let expanded ← zOptString (j.getField "expanded_url")
  let display ← zOptString (j.getField "display_url")
  pure { url := url, expanded_url := expanded, display_url := display }

/-- `z.string()` as an array element. -/
def zStringElem : Json → Option String
  | .str s => some s
  | _ => none

/-- The optional `metrics` object of the compact-export schema. -/
structure ExportedMetrics where
  likes : Option Int := none
  retweets : Option Int := none
  replies : Option Int := none
  quotes : Option Int := none
  bookmarks : Option Int := none

/-- Parse the `metrics` object of `ExportedTweetSchema`. -/
def zExportedMetrics : Json → Option ExportedMetrics
  | .obj fields => do
    let j := Json.obj fields
    let likes ← zOptNum (j.getField "likes")
    let retweets ← zOptNum (j.getField "retweets")
    let replies ← zOptNum (j.getField "replies")
    let quotes ← zOptNum (j.getField "quotes")
    let bookmarks ← zOptNum (j.getField "bookmarks")
    pure { likes := likes, retweets := retweets, replies := replies,
           quotes := quotes, bookmarks := bookmarks }
  | _ => none

/-- An inner-object field parsed with `f`, wrapped in `.optional()`. -/
def zOptObj (f : Json → Option α) : Option Json → Option (Option α)
  | none => some none
  | some j => (f j).map some

/-- `z.record(z.unknown()).optional()`: an optional plain object. -/
def zOptRecord : Option Json → Option (Option Json)
  | none => some none
  | some (.obj fields) => some (some (.obj fields))
  | some _ => none

/-- The result of `ExportedTweetSchema.parse`. -/
structure ExportedTweet where
  id : String
  author_username : String
  author_name : Option String := none
  author_profile_image : Option String := none
  text : String
  created_at : Option String := none
  urls : Option (List UrlEntity) := none
  media : Option (List String) := none
  metrics : Option ExportedMetrics := none
  raw : Option Json := none

/-- src/src/process/tweets.ts `ExportedTweetSchema` (Zod), as a parser:
the exported-bookmark shape `{ id, author{username,name?,profile_image?},
text, created_at?, urls?, media?, metrics?, raw? }`. -/
def ExportedTweetSchema (data : Json) : Option ExportedTweet := do
  let id ← zString (data.getField "id")
  let author ← data.getField "author"
  let username ← zString (author.getField "username")
  let name ← zOptString (author.getField "name")
  let profile_image ← zOptString (author.getField "profile_image")
  let text ← zString (data.getField "text")
  let created_at ← zOptString (data.getField "created_at")
  let urls ← zOptArray zUrlEntity (data.getField "urls")
  let media ← zOptArray zStringElem (data.getField "media")
  let metrics ← zOptObj zExportedMetrics (data.getField "metrics")
  let raw ← zOptRecord (data.getField "raw")
  pure { id := id, author_username := username, author_name := name,
         author_profile_image := profile_image, text := text,
         created_at := created_at, urls := urls, media := media,
         metrics := metrics, raw := raw }

/-- An element of `legacy.entities.media` of the platform-API schema. -/
structure GraphQLMedia where
  media_url_https : String
  mediaType : String

/-- Parse a `media` element of `TweetDataSchema`
(`{ media_url_https, type }`). -/
def zGraphQLMedia (j : Json) : Option GraphQLMedia := do
  let url ← zString (j.getField "media_url_https")
  let ty ← zString (j.getField "type")
  pure { media_url_https := url, mediaType := ty }

/-- The optional `legacy.entities` object of the platform-API schema. -/
structure GraphQLEntities where
  urls : Option (List UrlEntity) := none
  media : Option (List GraphQLMedia) := none

/-- Parse the `entities` object of `TweetDataSchema`. -/
def zGraphQLEntities : Json → Option GraphQLEntities
  | .obj fields => do
    let j := Json.obj fields
    let urls ← zOptArray zUrlEntity (j.getField "urls")
    let media ← zOptArray zGraphQLMedia (j.getField "media")
    pure { urls := urls, media := media }
  | _ => none

/-- The result of `TweetDataSchema.parse`. -/
structure TweetData where
  rest_id : String
  screen_name : String
  user_name : Option String := none
  profile_image_url_https : Option String := none
  full_text : String
  created_at : Option String := none
  entities : Option GraphQLEntities := none
  favorite_count : Option Int := none
  retweet_count : Option Int := none
  reply_count : Option Int := none
  quote_count : Option Int := none
  bookmark_count : Option Int := none

/-- src/src/process/tweets.ts `TweetDataSchema` (Zod), as a parser:
the platform GraphQL bookmark shape. -/
def TweetDataSchema (data : Json) : Option TweetData := do
  let rest_id ← zString (data.getField "rest_id")
  let core ← data.getField "core"
  let user_results ← core.getField "user_results"
  let result ← user_results.getField "result"
  let userLegacy ← result.getField "legacy"
  let screen_name ← zString (userLegacy.getField "screen_name")
  let user_name ← zOptString (userLegacy.getField "name")
  let profile_image ← zOptString (userLegacy.getField "profile_image_url_https")
  let legacy ← data.getField "legacy"
  let full_text ← zString (legacy.getField "full_text")
  let created_at ← zOptString (legacy.getField "created_at")
  let entities ← zOptObj zGraphQLEntities (legacy.getField "entities")
  let favorite_count ← zOptNum (legacy.getField "favorite_count")
  let retweet_count ← zOptNum (legacy.getField "retweet_count")
  let reply_count ← zOptNum (legacy.getField "reply_count")
  let quote_count ← zOptNum (legacy.getField "quote_count")
  let bookmark_count ← zOptNum (legacy.getField "bookmark_count")
  pure { rest_id := rest_id, screen_name := screen_name,
         user_name := user_name, profile_image_url_https := profile_image,
         full_text := full_text, created_at := created_at,
         entities := entities, favorite_count := favorite_count,
         retweet_count := retweet_count, reply_count := reply_count,
         quote_count := quote_count, bookmark_count := bookmark_count }

/-! ### The canonical Tweet record -/

/-- The `Tweet` row (src/src/utils/supabase.ts interface, plus the
Convex row marker `links_extracted_at`). The optional embedding vector
is abstracted to a list of integers: no claim inspects component
values. -/
structure Tweet where
  tweet_id : String
  author_username : String
  author_name : Option String := none
  author_profile_image : Option String := none
  content : String
  created_at : Option String := none
  media_urls : List String := []
  metrics : List (String × Int) := []
  raw_data : Option Json := none
  fetched_at : Option String := none
  processed_at : Option String := none
  embedding : Option (List Int) := none
  links_extracted_at : Option String := none

/-- The `metrics` record built by `parseExportedTweet`
(`parsed.metrics ?? {}` keeps exactly the keys that were present). -/
def ExportedMetrics.toRecord (m : ExportedMetrics) : List (String × Int) :=
  ([("likes", m.likes), ("retweets", m.retweets), ("replies", m.replies),
    ("quotes", m.quotes), ("bookmarks", m.bookmarks)]).filterMap
    (fun kv => kv.2.map (fun n => (kv.1, n)))

/-- src/src/process/tweets.ts `parseExportedTweet`: Zod parse of the
compact-export shape, then field mapping. A present non-empty
`created_at` goes through `new Date(...).toISOString()`, which throws
on an invalid date; the surrounding `try`/`catch` turns that throw into
`null`, so the whole item is rejected. -/
def parseExportedTweet (dateParse : String → Option String) (data : Json) :
    Option Tweet :=
  match ExportedTweetSchema data with
  | none => none
  | some parsed =>
    let createdAttempt : Option (Option String) :=
      match parsed.created_at with
      | none => some none
      | some s => if s = "" then some none else (dateParse s).map some
    match createdAttempt with
    | none => none
    | some created =>
      some { tweet_id := parsed.id,
             author_username := parsed.author_username,
             author_name := parsed.author_name,
             author_profile_image := parsed.author_profile_image,
             content := parsed.text,
             created_at := created,
             media_urls := parsed.media.getD [],
             metrics := (parsed.metrics.map ExportedMetrics.toRecord).getD [],
             raw_data := parsed.raw }

/-- The `metrics` record built by `parseGraphQLTweet` (all five
counters, defaulting to 0). -/
def TweetData.toMetrics (p : TweetData) : List (String × Int) :=
  [("likes", p.favorite_count.getD 0), ("retweets", p.retweet_count.getD 0),
   ("replies", p.reply_count.getD 0), ("quotes", p.quote_count.getD 0),
   ("bookmarks", p.bookmark_count.getD 0)]

/-- src/src/process/tweets.ts `parseGraphQLTweet`: Zod parse of the
platform-API shape, then field mapping; same throwing `toISOString`
pattern on `legacy.created_at`; `raw_data` retains the whole input. -/
def parseGraphQLTweet (dateParse : String → Option String) (data : Json) :
    Option Tweet :=
  match TweetDataSchema data with
  | none => none
  | some parsed =>
    let createdAttempt : Option (Option String) :=
      match parsed.created_at with
      | none => some none
      | some s => if s = "" then some none else (dateParse s).map some
    match createdAttempt with
    | none => none
    | some created =>
      some { tweet_id := parsed.rest_id,
             author_username := parsed.screen_name,
             author_name := parsed.user_name,
             author_profile_image := parsed.profile_image_url_https,
             content := parsed.full_text,
             created_at := created,
             media_urls :=
               ((parsed.entities.bind (·.media)).getD []).map
                 (·.media_url_https),
             metrics := parsed.toMetrics,
             raw_data := some data }

/-- convex/tweetVault.ts `toIsoDate`: empty/absent input and invalid
dates become `undefined` (checked with `Number.isNaN`), a valid date
becomes its ISO form. -/
def toIsoDate (dateParse : String → Option String) :
    Option String → Option String
  | none => none
  | some s => if s = "" then none else dateParse s

/-! ### Deduplicator and persistence —
src/src/process/tweets.ts `processTweets` and
convex/tweetVaultMutations.ts `upsertTweets` -/

/-- The `payload` object built by the `upsertTweets` mutation for one
incoming tweet (its `id` column equals `tweet.id ?? tweet.tweet_id`,
which in the sync path is always `tweet_id`); `embedding` and
`links_extracted_at` are not part of the payload. -/
def upsertPayload (now : String) (t : Tweet) : Tweet :=
  { tweet_id := t.tweet_id,
    author_username := t.author_username,
    author_name := t.author_name,
    author_profile_image := t.author_profile_image,
    content := t.content,
    created_at := t.created_at,
    media_urls := t.media_urls,
    metrics := t.metrics,
    raw_data := t.raw_data,
    fetched_at := some (t.fetched_at.getD now),
    processed_at := t.processed_at }

/-- `ctx.db.patch(existing._id, payload)`: the payload fields replace
the stored row's, fields outside the payload are kept. The `tweets`
table is addressed through its unique `by_tweet_id` index. -/
def patchTweetRow (now : String) (t : Tweet) (row : Tweet) : Tweet :=
  { upsertPayload now t with
    embedding := row.embedding,
    links_extracted_at := row.links_extracted_at }

/-- The loop of convex/tweetVaultMutations.ts `upsertTweets`:
batch-internal duplicate ids are skipped via `seen`; an id already in
the table is patched and reported in `updated`, a new id is inserted
and reported in `added`. -/
def upsertTweetsGo (now : String) :
    List Tweet → List String → List Tweet →
      (List String × List String) × List Tweet
  | [], _, rows => (([], []), rows)
  | t :: rest, seen, rows =>
    if t.tweet_id ∈ seen then upsertTweetsGo now rest seen rows
    else
      match rows.find? (fun r => r.tweet_id = t.tweet_id) with
      | some _ =>
        let rows1 := rows.map (fun r =>
          if r.tweet_id = t.tweet_id then patchTweetRow now t r else r)
        let res := upsertTweetsGo now rest (t.tweet_id :: seen) rows1
        ((res.1.1, t.tweet_id :: res.1.2), res.2)
      | none =>
        let rows1 := rows ++ [upsertPayload now t]
        let res := upsertTweetsGo now rest (t.tweet_id :: seen) rows1
        ((t.tweet_id :: res.1.1, res.1.2), res.2)

/-- convex/tweetVaultMutations.ts `upsertTweets`: returns
`(added ids, updated ids)` and the table after the mutation. -/
def upsertTweets (now : String) (rows : List Tweet) (tweets : List Tweet) :
    (List String × List String) × List Tweet :=
  upsertTweetsGo now tweets [] rows

/-- src/src/utils `getExistingTweetIds`: the set of identifiers already
persisted. -/
def getExistingTweetIds (rows : List Tweet) : List String :=
  rows.map (·.tweet_id)

/-- `parseExportedTweet` with fallback to `parseGraphQLTweet`
(the `if (!tweet)` chain of `processTweets`). -/
def parseTweetItem (dateParse : String → Option String) (item : Json) :
    Option Tweet :=
  match parseExportedTweet dateParse item with
  | some t => some t
  | none => parseGraphQLTweet dateParse item

/-- The parsing/deduplication loop of `processTweets`: an item that
matches neither schema is skipped and counted, an item whose identifier
is already known is skipped and counted, the rest are collected. -/
def partitionTweets (dateParse : String → Option String)
    (existingIds : List String) : List Json → List Tweet × Nat
  | [] => ([], 0)
  | item :: rest =>
    let res := partitionTweets dateParse existingIds rest
    match parseTweetItem dateParse item with
    | none => (res.1, res.2 + 1)
    | some t =>
      if t.tweet_id ∈ existingIds then (res.1, res.2 + 1)
      else (t :: res.1, res.2)

/-- src/src/process/tweets.ts `processTweets`: fetch existing ids,
parse and deduplicate the batch, and upsert the survivors; returns
`(added ids, skipped count)` and the table after the run. -/
def processTweets (dateParse : String → Option String) (now : String)
    (rows : List Tweet) (items : List Json) :
    (List String × Nat) × List Tweet :=
  let existingIds := getExistingTweetIds rows
  let parsedRes := partitionTweets dateParse existingIds items
  if parsedRes.1.isEmpty then (([], parsedRes.2), rows)
  else
    let upsertRes := upsertTweets now rows parsedRes.1
    ((upsertRes.1.1, parsedRes.2), upsertRes.2)

/-! ### Idempotence of `processTweets` over `upsertTweets` -/

theorem mem_ids_patch (now : String) (t : Tweet) (rows : List Tweet)
    (id : String) (h : id ∈ rows.map (·.tweet_id)) :
    id ∈ (rows.map (fun r =>
      if r.tweet_id = t.tweet_id then patchTweetRow now t r else r)).map
        (·.tweet_id) := by
  simp only [List.map_map, List.mem_map] at h ⊢
  obtain ⟨r, hr, hid⟩ := h
  refine ⟨r, hr, ?_⟩
  by_cases hrt : r.tweet_id = t.tweet_id
  · simp [Function.comp, hrt, patchTweetRow, upsertPayload, ← hid, hrt]
  · simp [Function.comp, hrt, ← hid]

theorem upsertTweetsGo_keeps (now : String) (batch : List Tweet) :
    ∀ (seen : List String) (rows : List Tweet) (id : String),
      id ∈ rows.map (·.tweet_id) →
      id ∈ (upsertTweetsGo now batch seen rows).2.map (·.tweet_id) := by
  induction batch with
  | nil => intro seen rows id h; simpa [upsertTweetsGo] using h
  | cons t rest ih =>
    intro seen rows id h
    rw [upsertTweetsGo]
    by_cases hseen : t.tweet_id ∈ seen
    · rw [if_pos hseen]; exact ih seen rows id h
    · rw [if_neg hseen]
      cases hfind : rows.find? (fun r => r.tweet_id = t.tweet_id) with
      | some r0 =>
        exact ih _ _ id (mem_ids_patch now t rows id h)
      | none =>
        refine ih _ _ id ?_
        simp only [List.map_append, List.mem_append]
        exact Or.inl h

theorem upsertTweetsGo_covers (now : String) (batch : List Tweet) :
    ∀ (seen : List String) (rows : List Tweet),
      (∀ s ∈ seen, s ∈ rows.map (·.tweet_id)) →
      ∀ t ∈ batch,
        t.tweet_id ∈ (upsertTweetsGo now batch seen rows).2.map
          (·.tweet_id) := by
  induction batch with
  | nil => intro seen rows _ t ht; cases ht
  | cons u rest ih =>
    intro seen rows hseen t ht
    rw [upsertTweetsGo]
    by_cases hs : u.tweet_id ∈ seen
    · rw [if_pos hs]
      rcases List.mem_cons.mp ht with rfl | ht
      · exact upsertTweetsGo_keeps now rest seen rows _ (hseen _ hs)
      · exact ih seen rows hseen t ht
    · rw [if_neg hs]
      cases hfind : rows.find? (fun r => r.tweet_id = u.tweet_id) with
      | some r0 =>
        have hr0 := List.find?_some hfind
        have hr0mem := List.mem_of_find?_eq_some hfind
        have humem : u.tweet_id ∈ (rows.map (fun r =>
            if r.tweet_id = u.tweet_id then patchTweetRow now u r else r)).map
              (·.tweet_id) := by
          simp only [List.mem_map]
          refine ⟨patchTweetRow now u r0, ?_, rfl⟩
          refine ⟨r0, hr0mem, ?_⟩
          rw [if_pos (by simpa using hr0)]
        have hseen1 : ∀ s ∈ u.tweet_id :: seen, s ∈ (rows.map (fun r =>
            if r.tweet_id = u.tweet_id then patchTweetRow now u r else r)).map
              (·.tweet_id) := by
          intro s hsmem
          rcases List.mem_cons.mp hsmem with rfl | hsmem
          · exact humem
          · exact mem_ids_patch now u rows s (hseen _ hsmem)
        rcases List.mem_cons.mp ht with rfl | ht
        · exact upsertTweetsGo_keeps now rest _ _ _ humem
        · exact ih _ _ hseen1 t ht
      | none =>
        have humem : u.tweet_id ∈ (rows ++ [upsertPayload now u]).map
            (·.tweet_id) := by
          simp [upsertPayload]
        have hseen1 : ∀ s ∈ u.tweet_id :: seen,
            s ∈ (rows ++ [upsertPayload now u]).map (·.tweet_id) := by
          intro s hsmem
          rcases List.mem_cons.mp hsmem with rfl | hsmem
          · exact humem
          · simp only [List.map_append, List.mem_append]
            exact Or.inl (hseen _ hsmem)
        rcases List.mem_cons.mp ht with rfl | ht
        · exact upsertTweetsGo_keeps now rest _ _ _ humem
        · exact ih _ _ hseen1 t ht

theorem upsertTweetsGo_added_spec (now : String) (batch : List Tweet) :
    ∀ (seen : List String) (rows : List Tweet),
      (upsertTweetsGo now batch seen rows).1.1.Nodup ∧
      ∀ id ∈ (upsertTweetsGo now batch seen rows).1.1,
        id ∉ rows.map (·.tweet_id) ∧ id ∉ seen ∧
          id ∈ batch.map (·.tweet_id) := by
  induction batch with
  | nil =>
    intro seen rows
    simp [upsertTweetsGo]
  | cons u rest ih =>
    intro seen rows
    rw [upsertTweetsGo]
    by_cases hs : u.tweet_id ∈ seen
    · rw [if_pos hs]
      refine ⟨(ih seen rows).1, fun id hid => ?_⟩
      obtain ⟨h1, h2, h3⟩ := (ih seen rows).2 id hid
      exact ⟨h1, h2, by simp [h3]⟩
    · rw [if_neg hs]
      cases hfind : rows.find? (fun r => r.tweet_id = u.tweet_id) with
      | some r0 =>
        set rows1 := rows.map (fun r =>
          if r.tweet_id = u.tweet_id then patchTweetRow now u r else r) with hrows1
        refine ⟨(ih _ rows1).1, fun id hid => ?_⟩
        obtain ⟨h1, h2, h3⟩ := (ih _ rows1).2 id hid
        refine ⟨fun hmem => h1 ?_, fun hmem => h2 (by simp [hmem]), by simp [h3]⟩
        exact mem_ids_patch now u rows id hmem
      | none =>
        set rows1 := rows ++ [upsertPayload now u] with hrows1
        have hspec := ih (u.tweet_id :: seen) rows1
        constructor
        · refine List.nodup_cons.mpr ⟨fun hmem => ?_, hspec.1⟩
          have := (hspec.2 u.tweet_id hmem).1
          exact this (by simp [hrows1, upsertPayload])
        · intro id hid
          rcases List.mem_cons.mp hid with rfl | hid
          · refine ⟨?_, hs, by simp⟩
            intro hmem
            have := List.find?_eq_none.mp hfind
            simp only [List.mem_map] at hmem
            obtain ⟨r, hr, hrid⟩ := hmem
            have hne : ¬ r.tweet_id = u.tweet_id := by simpa using this r hr
            exact hne hrid
          · obtain ⟨h1, h2, h3⟩ := hspec.2 id hid
            refine ⟨fun hmem => h1 ?_, fun hmem => h2 (by simp [hmem]),
              by simp [h3]⟩
            simp only [hrows1, List.map_append, List.mem_append]
            exact Or.inl hmem

theorem partitionTweets_cons (dp : String → Option String)
    (E : List String) (item : Json) (rest : List Json) :
    partitionTweets dp E (item :: rest) =
      match parseTweetItem dp item with
      | none => ((partitionTweets dp E rest).1,
          (partitionTweets dp E rest).2 + 1)
      | some t =>
        if t.tweet_id ∈ E then
          ((partitionTweets dp E rest).1, (partitionTweets dp E rest).2 + 1)
        else
          (t :: (partitionTweets dp E rest).1,
            (partitionTweets dp E rest).2) := rfl

theorem partitionTweets_cons_none {dp : String → Option String}
    {E : List String} {item : Json} (rest : List Json)
    (hp : parseTweetItem dp item = none) :
    partitionTweets dp E (item :: rest) =
      ((partitionTweets dp E rest).1, (partitionTweets dp E rest).2 + 1) := by
  rw [partitionTweets_cons, hp]

theorem partitionTweets_cons_skip {dp : String → Option String}
    {E : List String} {item : Json} {t : Tweet} (rest : List Json)
    (hp : parseTweetItem dp item = some t) (hE : t.tweet_id ∈ E) :
    partitionTweets dp E (item :: rest) =
      ((partitionTweets dp E rest).1, (partitionTweets dp E rest).2 + 1) := by
  rw [partitionTweets_cons, hp]
  exact if_pos hE

theorem partitionTweets_cons_new {dp : String → Option String}
    {E : List String} {item : Json} {t : Tweet} (rest : List Json)
    (hp : parseTweetItem dp item = some t) (hE : t.tweet_id ∉ E) :
    partitionTweets dp E (item :: rest) =
      (t :: (partitionTweets dp E rest).1,
        (partitionTweets dp E rest).2) := by
  rw [partitionTweets_cons, hp]
  exact if_neg hE

theorem partitionTweets_sound (dp : String → Option String)
    (E : List String) :
    ∀ items : List Json, ∀ t ∈ (partitionTweets dp E items).1,
      (∃ item ∈ items, parseTweetItem dp item = some t) ∧
        t.tweet_id ∉ E := by
  intro items
  induction items with
  | nil => intro t ht; cases ht
  | cons item rest ih =>
    intro t ht
    cases hp : parseTweetItem dp item with
    | none =>
      rw [partitionTweets_cons_none rest hp] at ht
      obtain ⟨⟨w, hw, hwp⟩, hnot⟩ := ih t ht
      exact ⟨⟨w, by simp [hw], hwp⟩, hnot⟩
    | some u =>
      by_cases hE : u.tweet_id ∈ E
      · rw [partitionTweets_cons_skip rest hp hE] at ht
        obtain ⟨⟨w, hw, hwp⟩, hnot⟩ := ih t ht
        exact ⟨⟨w, by simp [hw], hwp⟩, hnot⟩
      · rw [partitionTweets_cons_new rest hp hE] at ht
        replace ht : t ∈ u :: (partitionTweets dp E rest).1 := ht
        rcases List.mem_cons.mp ht with rfl | ht
        · exact ⟨⟨item, by simp, hp⟩, hE⟩
        · obtain ⟨⟨w, hw, hwp⟩, hnot⟩ := ih t ht
          exact ⟨⟨w, by simp [hw], hwp⟩, hnot⟩

theorem partitionTweets_cover (dp : String → Option String)
    (E : List String) :
    ∀ items : List Json, ∀ item ∈ items, ∀ t,
      parseTweetItem dp item = some t →
      t.tweet_id ∈ E ∨ t ∈ (partitionTweets dp E items).1 := by
  intro items
  induction items with
  | nil => intro item hmem; cases hmem
  | cons hd rest ih =>
    intro item hmem t hp
    rcases List.mem_cons.mp hmem with rfl | hmem
    · by_cases hE : t.tweet_id ∈ E
      · exact Or.inl hE
      · rw [partitionTweets_cons_new rest hp hE]
        refine Or.inr ?_
        show t ∈ t :: (partitionTweets dp E rest).1
        exact List.mem_cons_self t _
    · rcases ih item hmem t hp with h | h
      · exact Or.inl h
      · cases hphd : parseTweetItem dp hd with
        | none =>
          rw [partitionTweets_cons_none rest hphd]
          exact Or.inr h
        | some u =>
          by_cases hE : u.tweet_id ∈ E
          · rw [partitionTweets_cons_skip rest hphd hE]
            exact Or.inr h
          · rw [partitionTweets_cons_new rest hphd hE]
            refine Or.inr ?_
            show t ∈ u :: (partitionTweets dp E rest).1
            exact List.mem_cons_of_mem _ h

theorem partitionTweets_empty (dp : String → Option String)
    (E : List String) :
    ∀ items : List Json,
      (∀ item ∈ items, ∀ t, parseTweetItem dp item = some t →
        t.tweet_id ∈ E) →
      (partitionTweets dp E items).1 = [] := by
  intro items
  induction items with
  | nil => intro _; rfl
  | cons hd rest ih =>
    intro h
    have hrest := ih (fun item hmem t hp => h item (by simp [hmem]) t hp)
    cases hp : parseTweetItem dp hd with
    | none =>
      rw [partitionTweets_cons_none rest hp]
      exact hrest
    | some u =>
      rw [partitionTweets_cons_skip rest hp (h hd (by simp) u hp)]
      exact hrest

theorem processTweets_eq (dp : String → Option String) (now : String)
    (rows : List Tweet) (items : List Json) :
    processTweets dp now rows items =
      if (partitionTweets dp (getExistingTweetIds rows) items).1.isEmpty then
        (([], (partitionTweets dp (getExistingTweetIds rows) items).2), rows)
      else
        (((upsertTweets now rows
            (partitionTweets dp (getExistingTweetIds rows) items).1).1.1,
          (partitionTweets dp (getExistingTweetIds rows) items).2),
          (upsertTweets now rows
            (partitionTweets dp (getExistingTweetIds rows) items).1).2) := rfl

theorem processTweets_persists (dp : String → Option String) (now : String)
    (rows : List Tweet) (items : List Json) :
    ∀ item ∈ items, ∀ t, parseTweetItem dp item = some t →
      t.tweet_id ∈ getExistingTweetIds
        (processTweets dp now rows items).2 := by
  intro item hmem t hp
  rw [processTweets_eq]
  rcases partitionTweets_cover dp (getExistingTweetIds rows) items item hmem
      t hp with h | h
  · by_cases hemp : (partitionTweets dp (getExistingTweetIds rows) items).1.isEmpty
    · rw [if_pos hemp]; exact h
    · rw [if_neg hemp]
      exact upsertTweetsGo_keeps now _ [] rows _ h
  · have hne : ¬ (partitionTweets dp (getExistingTweetIds rows)
        items).1.isEmpty := by
      intro hemp
      simp only [List.isEmpty_iff] at hemp
      rw [hemp] at h
      cases h
    rw [if_neg hne]
    exact upsertTweetsGo_covers now _ [] rows (by simp) t h

/-- C1: running `processTweets` twice over the same input batch is
idempotent — the second run (deduplicating against the identifiers
persisted by the first run's `upsertTweets`) adds nothing — and a
run's added identifiers are distinct and only ever identifiers that
were truly novel (parsed from the input and not yet in the store). -/
theorem C1_processTweets_idempotent (dp : String → Option String)
    (now1 now2 : String) (rows : List Tweet) (items : List Json) :
    (processTweets dp now2 (processTweets dp now1 rows items).2
        items).1.1 = [] ∧
    (processTweets dp now1 rows items).1.1.Nodup ∧
    ∀ id ∈ (processTweets dp now1 rows items).1.1,
      id ∉ getExistingTweetIds rows ∧
      ∃ item ∈ items, ∃ t, parseTweetItem dp item = some t ∧
        t.tweet_id = id := by
  refine ⟨?_, ?_, ?_⟩
  · have hall := processTweets_persists dp now1 rows items
    have hemp := partitionTweets_empty dp
      (getExistingTweetIds (processTweets dp now1 rows items).2) items
      (fun item hmem t hp => hall item hmem t hp)
    rw [processTweets_eq, if_pos (by simp [hemp])]
  · rw [processTweets_eq]
    by_cases hemp : (partitionTweets dp (getExistingTweetIds rows)
        items).1.isEmpty
    · rw [if_pos hemp]; exact List.nodup_nil
    · rw [if_neg hemp]
      exact (upsertTweetsGo_added_spec now1 _ [] rows).1
  · intro id hid
    rw [processTweets_eq] at hid
    by_cases hemp : (partitionTweets dp (getExistingTweetIds rows)
        items).1.isEmpty
    · rw [if_pos hemp] at hid; cases hid
    · rw [if_neg hemp] at hid
      obtain ⟨h1, _, h3⟩ :=
        (upsertTweetsGo_added_spec now1 _ [] rows).2 id hid
      refine ⟨h1, ?_⟩
      simp only [List.mem_map] at h3
      obtain ⟨t, htmem, htid⟩ := h3
      obtain ⟨⟨item, hitem, hparse⟩, _⟩ :=
        partitionTweets_sound dp (getExistingTweetIds rows) items t htmem
      exact ⟨item, hitem, t, hparse, htid⟩

/-- A concrete compact-export item used by witnesses. -/
def sampleExportItem : Json :=
  .obj [("id", .str "42"), ("author", .obj [("username", .str "bob")]),
        ("text", .str "hello")]

/-- Witness for `C1_processTweets_idempotent` on a one-item import into
an empty store: the first run adds `42`, which is novel, and the second
run adds nothing. -/
theorem C1_processTweets_idempotent_witness :
    "42" ∉ getExistingTweetIds ([] : List Tweet) ∧
    (processTweets (fun _ => none) "t2"
      (processTweets (fun _ => none) "t1" [] [sampleExportItem]).2
      [sampleExportItem]).1.1 = [] :=
  ⟨((C1_processTweets_idempotent (fun _ => none) "t1" "t2" []
      [sampleExportItem]).2.2 "42" (by decide)).1,
    (C1_processTweets_idempotent (fun _ => none) "t1" "t2" []
      [sampleExportItem]).1⟩

/-- A compact-export item whose `created_at` is not a parseable date
(everything else is well-formed). -/
def c7Item : Json :=
  .obj [("id", .str "7"), ("author", .obj [("username", .str "alice")]),
        ("text", .str "hi"), ("created_at", .str "not a date")]

/-- C7 (divergence witness): an item that structurally matches the
compact-export schema but carries an unparseable `created_at` is
REJECTED by the Normalizer — `new Date(...).toISOString()` throws and
the surrounding `catch` returns `null`, so `processTweets` counts the
item as skipped and produces no Post — contradicting the specified
behaviour (timestamp becomes absent, item kept), which
convex/tweetVault.ts `toIsoDate` implements. The date parser is
instantiated with the environment in which `"not a date"` is an
invalid date. -/
theorem C7_unparseable_timestamp_rejects_item :
    (ExportedTweetSchema c7Item).isSome = true ∧
    parseExportedTweet (fun _ => none) c7Item = none ∧
    parseGraphQLTweet (fun _ => none) c7Item = none ∧
    processTweets (fun _ => none) "t1" [] [c7Item] = (([], 1), []) ∧
    toIsoDate (fun _ => none) (some "not a date") = none :=
  ⟨rfl, rfl, rfl, rfl, rfl⟩

/-! ### Incremental fetch window and checkpoint —
convex/tweetVault.ts `syncTweetVault` -/

/-- JavaScript truthiness of a possibly-undefined string: `undefined`
and the empty string are falsy. -/
def jsTruthy : Option String → Bool
  | none => false
  | some s => s ≠ ""

/-- One item returned by the bird client (`result.tweets[i]`); any
field may be missing. `rawJson` stands for `tweet._raw ?? tweet`. -/
structure FetchedTweet where
  id : Option String := none
  author_username : Option String := none
  author_name : Option String := none
  text : Option String := none
  createdAt : Option String := none
  media : List String := []
  replyCount : Option Int := none
  retweetCount : Option Int := none
  likeCount : Option Int := none
  rawJson : Json := .null

/-- The `if (!tweet.id || !username || !content) continue` guard. -/
def validFetched (t : FetchedTweet) : Bool :=
  jsTruthy t.id ∧ jsTruthy t.author_username ∧ jsTruthy t.text

/-- The `UpsertTweet` candidate pushed for a valid fetched item
(`media_urls` keeps the url list only when non-empty; the metrics
counters default to 0; `raw_data` is retained only with `includeRaw`). -/
def toUpsertTweet (dp : String → Option String) (includeRaw : Bool)
    (now : String) (t : FetchedTweet) : Tweet :=
  { tweet_id := t.id.getD "",
    author_username := t.author_username.getD "",
    author_name := t.author_name,
    content := t.text.getD "",
    created_at := toIsoDate dp t.createdAt,
    media_urls := t.media.filter (fun u => u ≠ ""),
    metrics := [("replies", t.replyCount.getD 0),
                ("retweets", t.retweetCount.getD 0),
                ("likes", t.likeCount.getD 0)],
    raw_data := if includeRaw then some t.rawJson else none,
    fetched_at := some now }

/-- The `for (const tweet of result.tweets)` loop of `syncTweetVault`:
consumption stops (with `checkpointHit = true`) as soon as the item id
equals the truthy checkpoint id; invalid items are skipped; the rest
become Post candidates in window order. -/
def collectNewTweets (dp : String → Option String) (includeRaw : Bool)
    (now : String) (prev : Option String) :
    List FetchedTweet → List Tweet × Bool
  | [] => ([], false)
  | t :: rest =>
    if jsTruthy prev ∧ t.id = prev then ([], true)
    else
      let res := collectNewTweets dp includeRaw now prev rest
      if validFetched t then (toUpsertTweet dp includeRaw now t :: res.1, res.2)
      else res

theorem collectNewTweets_spec (dp : String → Option String)
    (includeRaw : Bool) (now : String) (p : String) (hp : p ≠ "") :
    ∀ items : List FetchedTweet,
      (collectNewTweets dp includeRaw now (some p) items).1 =
        ((items.takeWhile (fun t => t.id ≠ some p)).filter
          validFetched).map (toUpsertTweet dp includeRaw now) ∧
      (collectNewTweets dp includeRaw now (some p) items).2 =
        items.any (fun t => t.id = some p) := by
  intro items
  induction items with
  | nil => exact ⟨rfl, rfl⟩
  | cons t rest ih =>
    by_cases hid : t.id = some p
    · have hcond : (jsTruthy (some p) ∧ t.id = some p) := ⟨by simpa [jsTruthy], hid⟩
      rw [collectNewTweets, if_pos hcond]
      constructor
      · rw [List.takeWhile_cons, if_neg (by simp [hid])]
        rfl
      · simp [hid]
    · have hcond : ¬ (jsTruthy (some p) ∧ t.id = some p) := by
        intro hc; exact hid hc.2
      rw [collectNewTweets, if_neg hcond]
      by_cases hv : validFetched t
      · rw [if_pos hv]
        constructor
        · rw [List.takeWhile_cons, if_pos (by simp [hid]),
            List.filter_cons, if_pos hv, List.map_cons, ih.1]
        · simp [hid, ih.2]
      · rw [if_neg hv]
        constructor
        · rw [List.takeWhile_cons, if_pos (by simp [hid]),
            List.filter_cons, if_neg hv, ih.1]
        · simp [hid, ih.2]

/-- The spec example window, reverse-chronological ids `105 .. 99`. -/
def c2Window : List FetchedTweet :=
  ["105", "104", "103", "102", "101", "100", "99"].map (fun i =>
    { id := some i, author_username := some ("u" ++ i),
      text := some ("t" ++ i) })

/-- C2: with a truthy prior checkpoint id, `syncTweetVault` consumes
the fetched window in order, stops at the first occurrence of the
checkpoint id (setting `checkpoint_hit`), and only the valid items
strictly before that position become Post candidates; on the example
window with checkpoint `"100"` exactly the five items
`105 .. 101` become candidates. -/
theorem C2_checkpoint_stops_consumption (dp : String → Option String)
    (includeRaw : Bool) (now : String) (p : String)
    (items : List FetchedTweet) (hp : p ≠ "") :
    ((collectNewTweets dp includeRaw now (some p) items).1 =
      ((items.takeWhile (fun t => t.id ≠ some p)).filter
        validFetched).map (toUpsertTweet dp includeRaw now) ∧
     (collectNewTweets dp includeRaw now (some p) items).2 =
       items.any (fun t => t.id = some p)) ∧
    ((collectNewTweets dp includeRaw now (some "100") c2Window).1.map
        (·.tweet_id) = ["105", "104", "103", "102", "101"] ∧
     (collectNewTweets dp includeRaw now (some "100") c2Window).1.length
        = 5 ∧
     (collectNewTweets dp includeRaw now (some "100") c2Window).2
        = true) := by
  refine ⟨collectNewTweets_spec dp includeRaw now p hp items, ?_, ?_, ?_⟩
  · have h := (collectNewTweets_spec dp includeRaw now "100"
      (by decide) c2Window).1
    rw [h]; rfl
  · have h := (collectNewTweets_spec dp includeRaw now "100"
      (by decide) c2Window).1
    rw [h]; rfl
  · have h := (collectNewTweets_spec dp includeRaw now "100"
      (by decide) c2Window).2
    rw [h]; rfl

/-- Witness for `C2_checkpoint_stops_consumption` at checkpoint
`"100"` and the example window. -/
theorem C2_checkpoint_witness :
    (collectNewTweets (fun _ => none) false "now" (some "100")
      c2Window).1.length = 5 :=
  ((C2_checkpoint_stops_consumption (fun _ => none) false "now" "100"
    c2Window (by decide)).2).2.1

/-! ### Link extraction — src/src/process/links.ts and
src/src/process/tweets.ts `extractUrlsFromTweet`

The WHATWG URL parser (`new URL(...)`) is the platform's; it is passed
in as `parseHost : String → Option String`, where `parseHost url` is
the parsed hostname and `none` models the `TypeError` thrown on an
unparseable URL (caught by `extractDomain`).
-/

/-- Read the string value of a property, `none` when absent or not a
string. -/
def jsGetStr (j : Json) (key : String) : Option String :=
  match j.getField key with
  | some (.str s) => some s
  | _ => none

/-- `tweet.raw_data?.legacy?.entities?.urls` as read (uncheckedly) by
src/src/process/tweets.ts `extractUrlsFromTweet`: entries are produced
when the path holds an array; a missing `url` property surfaces as the
empty string (JavaScript would carry `undefined`, which compares
unequal to every scanned token just as `""` does). -/
def rawUrlEntities (raw : Option Json) : List UrlEntity :=
  match ((raw.bind (·.getField "legacy")).bind
      (·.getField "entities")).bind (·.getField "urls") with
  | some (.arr items) =>
    items.map (fun e =>
      { url := (jsGetStr e "url").getD "",
        expanded_url := jsGetStr e "expanded_url",
        display_url := jsGetStr e "display_url" })
  | _ => []

/-- src/src/process/tweets.ts `extractUrlsFromTweet`: structured
entities from `raw_data`, then a plain regex scan of the content (no
line-break normalization and no trimming in this variant), suppressing
tokens already present by raw or expanded form. -/
def extractUrlsFromTweet (t : Tweet) : List UrlEntity :=
  (scanUrls t.content.toList).foldl
    (fun urls url =>
      if urls.any (fun u => u.url = url ∨ u.expanded_url = some url) then
        urls
      else urls ++ [{ url := url }])
    (rawUrlEntities t.raw_data)

/-- JavaScript `a || b` on an optional string (empty string is falsy). -/
def jsOrElse (o : Option String) (dflt : String) : String :=
  match o with
  | some s => if s = "" then dflt else s
  | none => dflt

/-- `hostname.replace(/^www\./, "")`. -/
def stripWww (host : String) : String :=
  if host.startsWith "www." then host.drop 4 else host

/-- src/src/process/links.ts `extractDomain`: hostname of the parsed
URL with a leading `www.` stripped, `null` when parsing throws. -/
def extractDomain (parseHost : String → Option String) (url : String) :
    Option String :=
  (parseHost url).map stripWww

/-- The fixed skip-set of same-platform domains. -/
def LINK_SKIP_DOMAINS : List String :=
  ["t.co", "pic.twitter.com", "twitter.com", "x.com", "pbs.twimg.com"]

/-- `domain && SKIP_DOMAINS.has(domain)`. -/
def isSkippedDomain : Option String → Bool
  | some d => d ∈ LINK_SKIP_DOMAINS
  | none => false

/-- One queued link candidate (the `linkBatch` element). -/
structure LinkRow where
  tweet_id : String
  url : String
  expanded_url : Option String := none
  display_url : Option String := none
  domain : Option String := none
  deriving Repr, DecidableEq

/-- The inner url loop of src/src/process/links.ts
`extractLinksFromTweets` (first variant): skip-listed domains are
dropped, `seen` deduplicates by the string key `tweet_id + "::" + url`,
the rest are queued with the derived (possibly absent) domain.
Returns (queued rows, seen keys, skipped count). -/
def linkLoop (parseHost : String → Option String) (tid : String) :
    List UrlEntity → List String → List LinkRow × List String × Nat
  | [], seen => ([], seen, 0)
  | u :: rest, seen =>
    if isSkippedDomain (extractDomain parseHost
        (jsOrElse u.expanded_url u.url)) then
      let res := linkLoop parseHost tid rest seen
      (res.1, res.2.1, res.2.2 + 1)
    else if (tid ++ "::" ++ u.url) ∈ seen then
      let res := linkLoop parseHost tid rest seen
      (res.1, res.2.1, res.2.2 + 1)
    else
      let res := linkLoop parseHost tid rest ((tid ++ "::" ++ u.url) :: seen)
      ({ tweet_id := tid, url := u.url, expanded_url := u.expanded_url,
         display_url := u.display_url,
         domain := extractDomain parseHost
           (jsOrElse u.expanded_url u.url) } :: res.1,
        res.2.1, res.2.2)

/-- The outer tweet loop of `extractLinksFromTweets`: `seen` persists
across tweets, queued rows accumulate in order. -/
def tweetLoop (parseHost : String → Option String) :
    List Tweet → List String → List LinkRow × Nat
  | [], _ => ([], 0)
  | t :: rest, seen =>
    let r1 := linkLoop parseHost t.tweet_id (extractUrlsFromTweet t) seen
    let r2 := tweetLoop parseHost rest r1.2.1
    (r1.1 ++ r2.1, r1.2.2 + r2.2)

/-- src/src/process/links.ts `extractLinksFromTweets` (first variant):
the queued `linkBatch` (later chunked into `upsertLinks` calls of 100)
and the skipped count. -/
def extractLinksFromTweets (parseHost : String → Option String)
    (tweets : List Tweet) : List LinkRow × Nat :=
  tweetLoop parseHost tweets []

/-- First-occurrence deduplication of a list of strings, relative to an
already-seen set. -/
def dedupFirstGo : List String → List String → List String
  | [], _ => []
  | x :: xs, seen =>
    if x ∈ seen then dedupFirstGo xs seen
    else x :: dedupFirstGo xs (x :: seen)

/-- First-occurrence deduplication of a list of strings. -/
def dedupFirst (l : List String) : List String :=
  dedupFirstGo l []

theorem string_append_cancel {a x y : String} (h : a ++ x = a ++ y) :
    x = y := by
  have hd := congrArg String.data h
  simp only [String.data_append] at hd
  exact String.ext (List.append_cancel_left hd)

theorem linkLoop_all_none (parseHost : String → Option String)
    (hph : ∀ u, parseHost u = none) (tid : String) :
    ∀ (urls : List UrlEntity) (useen : List String),
      (linkLoop parseHost tid urls
        (useen.map (fun v => tid ++ "::" ++ v))).1.map (·.url) =
          dedupFirstGo (urls.map (·.url)) useen ∧
      ∀ row ∈ (linkLoop parseHost tid urls
          (useen.map (fun v => tid ++ "::" ++ v))).1,
        row.domain = none := by
  intro urls
  induction urls with
  | nil => intro useen; exact ⟨rfl, by intro row hr; cases hr⟩
  | cons u rest ih =>
    intro useen
    have hdom : extractDomain parseHost (jsOrElse u.expanded_url u.url) =
        none := by rw [extractDomain, hph]; rfl
    rw [linkLoop, hdom]
    rw [if_neg (by simp [isSkippedDomain])]
    by_cases hkey : (tid ++ "::" ++ u.url) ∈
        useen.map (fun v => tid ++ "::" ++ v)
    · have hu : u.url ∈ useen := by
        simp only [List.mem_map] at hkey
        obtain ⟨v, hv, hveq⟩ := hkey
        have : v = u.url := string_append_cancel hveq
        rwa [← this]
      rw [if_pos hkey]
      refine ⟨?_, (ih useen).2⟩
      rw [(ih useen).1]
      rw [List.map_cons, dedupFirstGo, if_pos hu]
    · have hu : u.url ∉ useen := by
        intro hmem
        exact hkey (List.mem_map_of_mem (fun v => tid ++ "::" ++ v) hmem)
      rw [if_neg hkey]
      have hseen1 : (tid ++ "::" ++ u.url) ::
          useen.map (fun v => tid ++ "::" ++ v) =
          (u.url :: useen).map (fun v => tid ++ "::" ++ v) := by
        rw [List.map_cons]
      constructor
      · simp only [List.map_cons, dedupFirstGo]
        rw [if_neg hu]
        show u.url :: _ = _
        rw [hseen1, (ih (u.url :: useen)).1]
      · intro row hrow
        rcases List.mem_cons.mp hrow with rfl | hrow
        · rfl
        · rw [hseen1] at hrow
          exact (ih (u.url :: useen)).2 row hrow

/-- C9: domain extraction is total — it returns the parsed hostname
with a leading `www.` stripped, or `none` when the URL parser throws —
and a batch of candidates whose URLs all fail to parse is still queued
in full (one row per first occurrence of each URL, none dropped by the
skip-set) with an absent domain on every row. -/
theorem C9_extractDomain_total_and_queued
    (parseHost : String → Option String) (t : Tweet) :
    (∀ url, extractDomain parseHost url =
      (parseHost url).map stripWww) ∧
    ((∀ u, parseHost u = none) →
      (extractLinksFromTweets parseHost [t]).1.map (·.url) =
        dedupFirst ((extractUrlsFromTweet t).map (·.url)) ∧
      ∀ row ∈ (extractLinksFromTweets parseHost [t]).1,
        row.domain = none) := by
  refine ⟨fun url => rfl, fun hph => ?_⟩
  have h := linkLoop_all_none parseHost hph t.tweet_id
    (extractUrlsFromTweet t) []
  have hempty : ([] : List String).map
      (fun v => t.tweet_id ++ "::" ++ v) = [] := rfl
  rw [hempty] at h
  have heq : (extractLinksFromTweets parseHost [t]).1 =
      (linkLoop parseHost t.tweet_id (extractUrlsFromTweet t) []).1 ++ [] :=
    rfl
  constructor
  · rw [heq, List.append_nil]
    exact h.1
  · intro row hrow
    rw [heq, List.append_nil] at hrow
    exact h.2 row hrow

/-- A tweet whose single content URL cannot be parsed as a URL by any
parser that rejects everything. -/
def c9Tweet : Tweet :=
  { tweet_id := "1", author_username := "a",
    content := "go https://a.b now" }

/-- Witness for `C9_extractDomain_total_and_queued` with the
everything-fails URL parser: the candidate is still queued, with
`domain = none`. -/
theorem C9_extractDomain_witness :
    (extractLinksFromTweets (fun _ => none) [c9Tweet]).1.map (·.url) =
      dedupFirst ((extractUrlsFromTweet c9Tweet).map (·.url)) :=
  ((C9_extractDomain_total_and_queued (fun _ => none) c9Tweet).2
    (fun _ => rfl)).1

/-! ### Metadata fetching — src/src/process/links.ts
`fetchAllLinkMetadata` (with src/src/utils/supabase.ts
`getLinksWithoutMetadata` / `updateLinkMetadata`)

The network is the environment: `fetchMeta url` is the result of
`fetchLinkMetadata(url)`, which returns the extracted fields on
success and `null` on any failure (non-ok response, timeout,
exception), never throwing.
-/

/-- The metadata extracted by a successful `fetchLinkMetadata`. -/
structure LinkMeta where
  title : Option String := none
  description : Option String := none
  og_image : Option String := none

/-- The `links` row of the relational store. -/
structure SupaLink where
  id : Nat
  tweet_id : String := ""
  url : String
  expanded_url : Option String := none
  display_url : Option String := none
  domain : Option String := none
  title : Option String := none
  description : Option String := none
  og_image : Option String := none
  fetch_error : Option String := none
  fetched_at : Option String := none
  embedding : Option (List Int) := none
  deriving Repr, DecidableEq

/-- The fields written by one `updateLinkMetadata` call. -/
structure MetaUpdate where
  title : Option String := none
  description : Option String := none
  og_image : Option String := none
  fetch_error : Option String := none

/-- src/src/utils/supabase.ts `getLinksWithoutMetadata`: rows with
`title` null and `fetch_error` null, up to `limit`. -/
def getLinksWithoutMetadata (limit : Nat) (links : List SupaLink) :
    List SupaLink :=
  (links.filter (fun l => l.title = none ∧ l.fetch_error = none)).take limit

/-- src/src/utils/supabase.ts `updateLinkMetadata`: overwrites the four
metadata columns (absent fields become null via `?? null`) and always
stamps `fetched_at`. -/
def updateLinkMetadata (now : String) (linkId : Nat) (md : MetaUpdate)
    (links : List SupaLink) : List SupaLink :=
  links.map (fun l =>
    if l.id = linkId then
      { l with title := md.title, description := md.description,
               og_image := md.og_image, fetch_error := md.fetch_error,
               fetched_at := some now }
    else l)

/-- The single write performed for one link of the batch: metadata on
success, the fixed fetch-error string on failure. -/
def metaWriteFor (fetchMeta : String → Option LinkMeta) (l : SupaLink) :
    MetaUpdate :=
  match fetchMeta (jsOrElse l.expanded_url l.url) with
  | some md => { title := md.title, description := md.description,
                 og_image := md.og_image }
  | none => { fetch_error := some "Failed to fetch metadata" }

/-- The handling of one batch link inside `fetchAllLinkMetadata`:
fetch, then exactly one `updateLinkMetadata` write — the metadata on
success (counted in `processed`), the fetch-error string on failure
(counted in `failed`). -/
def fetchStep (fetchMeta : String → Option LinkMeta) (now : String)
    (acc : (Nat × Nat) × List SupaLink) (link : SupaLink) :
    (Nat × Nat) × List SupaLink :=
  match fetchMeta (jsOrElse link.expanded_url link.url) with
  | some _ =>
    ((acc.1.1 + 1, acc.1.2),
      updateLinkMetadata now link.id (metaWriteFor fetchMeta link) acc.2)
  | none =>
    ((acc.1.1, acc.1.2 + 1),
      updateLinkMetadata now link.id (metaWriteFor fetchMeta link) acc.2)

/-- src/src/process/links.ts `fetchAllLinkMetadata` (first variant):
queries one batch of unfetched links and handles each one (the
`Promise.allSettled` slices of `concurrency` only bound parallelism —
every link of the batch is attempted regardless of sibling failures). -/
def fetchAllLinkMetadata (fetchMeta : String → Option LinkMeta)
    (now : String) (batchSize : Nat) (links : List SupaLink) :
    (Nat × Nat) × List SupaLink :=
  (getLinksWithoutMetadata batchSize links).foldl
    (fetchStep fetchMeta now) ((0, 0), links)

/-- The state of a batch link after its one write. -/
def metadataOutcome (fetchMeta : String → Option LinkMeta) (now : String)
    (l : SupaLink) : SupaLink :=
  { l with title := (metaWriteFor fetchMeta l).title,
           description := (metaWriteFor fetchMeta l).description,
           og_image := (metaWriteFor fetchMeta l).og_image,
           fetch_error := (metaWriteFor fetchMeta l).fetch_error,
           fetched_at := some now }

theorem find?_updateLinkMetadata_ne (now : String) (linkId : Nat)
    (md : MetaUpdate) (st : List SupaLink) (qid : Nat) (hne : qid ≠ linkId) :
    (updateLinkMetadata now linkId md st).find? (fun r => r.id = qid) =
      st.find? (fun r => r.id = qid) := by
  induction st with
  | nil => rfl
  | cons r rest ih =>
    rw [updateLinkMetadata, List.map_cons]
    by_cases hr : r.id = linkId
    · rw [if_pos hr]
      rw [List.find?_cons_of_neg, List.find?_cons_of_neg]
      · exact ih
      · simp only [decide_eq_true_eq]
        omega
      · simp only [decide_eq_true_eq]
        show ¬ r.id = qid
        omega
    · rw [if_neg hr]
      by_cases hq : r.id = qid
      · rw [List.find?_cons_of_pos, List.find?_cons_of_pos] <;>
          simp [hq]
      · rw [List.find?_cons_of_neg, List.find?_cons_of_neg]
        · exact ih
        · simpa using hq
        · simpa using hq

theorem find?_updateLinkMetadata_eq (now : String) (linkId : Nat)
    (md : MetaUpdate) (st : List SupaLink) (l : SupaLink)
    (hfind : st.find? (fun r => r.id = linkId) = some l) :
    (updateLinkMetadata now linkId md st).find? (fun r => r.id = linkId) =
      some { l with title := md.title, description := md.description,
                    og_image := md.og_image, fetch_error := md.fetch_error,
                    fetched_at := some now } := by
  induction st with
  | nil => cases hfind
  | cons r rest ih =>
    rw [updateLinkMetadata, List.map_cons]
    by_cases hr : r.id = linkId
    · rw [List.find?_cons_of_pos _ (by simpa using hr)] at hfind
      cases hfind
      rw [if_pos hr]
      rw [List.find?_cons_of_pos]
      simpa using hr
    · rw [List.find?_cons_of_neg _ (by simpa using hr)] at hfind
      rw [if_neg hr]
      rw [List.find?_cons_of_neg _ (by simpa using hr)]
      exact ih hfind

theorem find?_of_nodup_mem {st : List SupaLink} {l : SupaLink}
    (hnodup : (st.map (·.id)).Nodup) (hmem : l ∈ st) :
    st.find? (fun r => r.id = l.id) = some l := by
  induction st with
  | nil => cases hmem
  | cons r rest ih =>
    rw [List.map_cons, List.nodup_cons] at hnodup
    rcases List.mem_cons.mp hmem with rfl | hmem
    · rw [List.find?_cons_of_pos _ (by simp)]
    · have hne : r.id ≠ l.id := by
        intro heq
        exact hnodup.1 (heq ▸ List.mem_map_of_mem (·.id) hmem)
      rw [List.find?_cons_of_neg _ (by simpa using hne)]
      exact ih hnodup.2 hmem

theorem fetchStep_snd (fetchMeta : String → Option LinkMeta) (now : String)
    (acc : (Nat × Nat) × List SupaLink) (link : SupaLink) :
    (fetchStep fetchMeta now acc link).2 =
      updateLinkMetadata now link.id (metaWriteFor fetchMeta link) acc.2 := by
  rw [fetchStep]
  cases fetchMeta (jsOrElse link.expanded_url link.url) with
  | some md => rfl
  | none => rfl

theorem fetchFold_spec (fetchMeta : String → Option LinkMeta)
    (now : String) :
    ∀ (batch : List SupaLink) (counts : Nat × Nat) (st : List SupaLink),
      (batch.map (·.id)).Nodup →
      (∀ l ∈ batch, st.find? (fun r => r.id = l.id) = some l) →
      (∀ l ∈ batch,
        (batch.foldl (fetchStep fetchMeta now) (counts, st)).2.find?
          (fun r => r.id = l.id) =
            some (metadataOutcome fetchMeta now l)) ∧
      (∀ qid, qid ∉ batch.map (·.id) →
        (batch.foldl (fetchStep fetchMeta now) (counts, st)).2.find?
          (fun r => r.id = qid) = st.find? (fun r => r.id = qid)) := by
  intro batch
  induction batch with
  | nil =>
    intro counts st _ _
    exact ⟨fun l hl => absurd hl (List.not_mem_nil l), fun _ _ => rfl⟩
  | cons l rest ih =>
    intro counts st hnodup hfind
    rw [List.map_cons, List.nodup_cons] at hnodup
    have hstep := fetchStep_snd fetchMeta now (counts, st) l
    have hsplit : fetchStep fetchMeta now (counts, st) l =
        ((fetchStep fetchMeta now (counts, st) l).1,
          updateLinkMetadata now l.id (metaWriteFor fetchMeta l) st) := by
      rw [← hstep]
    set st1 := updateLinkMetadata now l.id (metaWriteFor fetchMeta l) st
      with hst1
    have hrestfind : ∀ m ∈ rest, st1.find? (fun r => r.id = m.id) = some m := by
      intro m hm
      have hne : m.id ≠ l.id := by
        intro heq
        exact hnodup.1 (heq ▸ List.mem_map_of_mem (·.id) hm)
      rw [hst1, find?_updateLinkMetadata_ne now l.id _ st m.id hne]
      exact hfind m (List.mem_cons_of_mem l hm)
    have hih := ih (fetchStep fetchMeta now (counts, st) l).1 st1
      hnodup.2 hrestfind
    constructor
    · intro m hm
      rw [List.foldl_cons, hsplit]
      rcases List.mem_cons.mp hm with rfl | hm
      · rw [hih.2 m.id hnodup.1]
        rw [hst1]
        exact find?_updateLinkMetadata_eq now m.id _ st m
          (hfind m (List.mem_cons_self m rest))
      · exact hih.1 m hm
    · intro qid hqid
      rw [List.foldl_cons, hsplit]
      have hqrest : qid ∉ rest.map (·.id) := by
        intro hq
        exact hqid (by simp [hq])
      have hqne : qid ≠ l.id := by
        intro heq
        exact hqid (by simp [heq])
      rw [hih.2 qid hqrest, hst1,
        find?_updateLinkMetadata_ne now l.id _ st qid hqne]

/-- C3: every metadata fetch attempt on a batch link terminates in
exactly one write — on success the extracted metadata with
`fetch_error` cleared, on failure the fetch-error string with `title`
cleared — so a non-null `fetch_error` and a non-null `title` never
coexist and `fetched_at` always records that an outcome was written;
links outside the batch are untouched, and each batch link receives
its own outcome regardless of sibling results (failure isolation). -/
theorem C3_fetch_exactly_one_outcome (fetchMeta : String → Option LinkMeta)
    (now : String) (batchSize : Nat) (links : List SupaLink)
    (hnodup : (links.map (·.id)).Nodup) :
    (∀ l ∈ getLinksWithoutMetadata batchSize links,
      (fetchAllLinkMetadata fetchMeta now batchSize links).2.find?
        (fun r => r.id = l.id) = some (metadataOutcome fetchMeta now l) ∧
      ¬((metadataOutcome fetchMeta now l).title ≠ none ∧
        (metadataOutcome fetchMeta now l).fetch_error ≠ none) ∧
      (metadataOutcome fetchMeta now l).fetched_at = some now) ∧
    (∀ l ∈ links, l.id ∉ (getLinksWithoutMetadata batchSize links).map
        (·.id) →
      (fetchAllLinkMetadata fetchMeta now batchSize links).2.find?
        (fun r => r.id = l.id) = some l) := by
  have hsub : (getLinksWithoutMetadata batchSize links).Sublist links :=
    ((links.filter _).take_sublist batchSize).trans links.filter_sublist
  have hbnodup : ((getLinksWithoutMetadata batchSize links).map
      (·.id)).Nodup :=
    (hsub.map (·.id)).nodup hnodup
  have hbfind : ∀ l ∈ getLinksWithoutMetadata batchSize links,
      links.find? (fun r => r.id = l.id) = some l := by
    intro l hl
    exact find?_of_nodup_mem hnodup (hsub.mem hl)
  have hspec := fetchFold_spec fetchMeta now
    (getLinksWithoutMetadata batchSize links) (0, 0) links hbnodup hbfind
  constructor
  · intro l hl
    refine ⟨hspec.1 l hl, ?_, rfl⟩
    rw [metadataOutcome, metaWriteFor]
    cases fetchMeta (jsOrElse l.expanded_url l.url) with
    | some md => simp
    | none => simp
  · intro l hl hnotb
    rw [show (fetchAllLinkMetadata fetchMeta now batchSize links).2 =
        ((getLinksWithoutMetadata batchSize links).foldl
          (fetchStep fetchMeta now) ((0, 0), links)).2 from rfl]
    rw [hspec.2 l.id hnotb]
    exact find?_of_nodup_mem hnodup hl

/-- First C3 witness link: its fetch succeeds. -/
def c3Link1 : SupaLink := { id := 1, url := "https://ok.example" }

/-- Second C3 witness link: its fetch fails. -/
def c3Link2 : SupaLink := { id := 2, url := "https://down.example" }

/-- A two-link store used by the C3 witness. -/
def c3Links : List SupaLink := [c3Link1, c3Link2]

/-- The C3 witness environment: metadata for `https://ok.example`,
failure for everything else. -/
def c3Fetch : String → Option LinkMeta := fun url =>
  if url = "https://ok.example" then some { title := some "OK" } else none

/-- Witness for `C3_fetch_exactly_one_outcome`: in the two-link batch
the failing second link still leaves the first link with its metadata
written, and each final row satisfies the exclusivity and
recorded-outcome facts. -/
theorem C3_fetch_exactly_one_outcome_witness :
    (fetchAllLinkMetadata c3Fetch "T" 50 c3Links).2.find?
      (fun r => r.id = 1) = some (metadataOutcome c3Fetch "T" c3Link1) ∧
    (fetchAllLinkMetadata c3Fetch "T" 50 c3Links).2.find?
      (fun r => r.id = 2) = some (metadataOutcome c3Fetch "T" c3Link2) :=
  ⟨((C3_fetch_exactly_one_outcome c3Fetch "T" 50 c3Links (by decide)).1
      c3Link1 (by decide)).1,
    ((C3_fetch_exactly_one_outcome c3Fetch "T" 50 c3Links (by decide)).1
      c3Link2 (by decide)).1⟩

/-! ### Embedding requests — convex/lib/embeddings.ts `embedTexts`

The HTTP environment is `respond : Nat → EmbedResponse` (the response
to the n-th attempt) and the random jitter is `jitter : Nat → Nat`
(`Math.floor(Math.random() * 250)`, so `jitter a < 250`). The model
additionally records the list of observed backoff delays. The
`OPENAI_API_KEY` presence guard (which throws before any request) is
outside the model.
-/

/-- Outcome of one embedding HTTP request. -/
inductive EmbedResponse where
  | ok (vectors : List (List Int)) : EmbedResponse
  | err (status : Nat) (body : String) : EmbedResponse

/-- `[429, 500, 502, 503, 504].includes(response.status)`. -/
def RETRYABLE_STATUS : List Nat := [429, 500, 502, 503, 504]

/-- `Math.min(500 * 2 ** (attempt - 1), 8000)`. -/
def backoffMs (attempt : Nat) : Nat :=
  min (500 * 2 ^ (attempt - 1)) 8000

/-- The `while (attempt < maxAttempts)` loop of `embedTexts`
(`maxAttempts = 5`); `fuel` counts the remaining loop iterations
(`5 - attempt`), `delays` accumulates the observed backoff sleeps.
A non-retryable status, or a failure on the fifth attempt, throws; the
fuel-exhausted case is the dead re-throw after the loop. -/
def embedAttempts (respond : Nat → EmbedResponse) (jitter : Nat → Nat) :
    Nat → Nat → List Nat → Except String (List (List Int) × List Nat)
  | 0, _, _ => .error "Embedding request failed"
  | fuel + 1, attempt, delays =>
    match respond (attempt + 1) with
    | .ok vecs => .ok (vecs, delays)
    | .err status body =>
      if status ∈ RETRYABLE_STATUS ∧ attempt + 1 < 5 then
        embedAttempts respond jitter fuel (attempt + 1)
          (delays ++ [backoffMs (attempt + 1) + jitter (attempt + 1)])
      else
        .error ("Embedding request failed (" ++ toString status ++ "): "
          ++ body)

/-- convex/lib/embeddings.ts `embedTexts`: empty input short-circuits;
otherwise up to 5 attempts with exponential backoff. Also returns the
observed delays. -/
def embedTexts (respond : Nat → EmbedResponse) (jitter : Nat → Nat)
    (texts : List String) :
    Except String (List (List Int) × List Nat) :=
  if texts.length = 0 then .ok ([], [])
  else embedAttempts respond jitter 5 0 []

theorem embedAttempts_succ_ok {respond : Nat → EmbedResponse}
    {jitter : Nat → Nat} {attempt : Nat} {vecs : List (List Int)}
    (fuel : Nat) (delays : List Nat)
    (hr : respond (attempt + 1) = .ok vecs) :
    embedAttempts respond jitter (fuel + 1) attempt delays =
      .ok (vecs, delays) := by
  rw [embedAttempts, hr]

theorem embedAttempts_succ_retry {respond : Nat → EmbedResponse}
    {jitter : Nat → Nat} {attempt status : Nat} {body : String}
    (fuel : Nat) (delays : List Nat)
    (hr : respond (attempt + 1) = .err status body)
    (hcond : status ∈ RETRYABLE_STATUS ∧ attempt + 1 < 5) :
    embedAttempts respond jitter (fuel + 1) attempt delays =
      embedAttempts respond jitter fuel (attempt + 1)
        (delays ++ [backoffMs (attempt + 1) + jitter (attempt + 1)]) := by
  rw [embedAttempts, hr]
  exact if_pos hcond

theorem embedAttempts_succ_throw {respond : Nat → EmbedResponse}
    {jitter : Nat → Nat} {attempt status : Nat} {body : String}
    (fuel : Nat) (delays : List Nat)
    (hr : respond (attempt + 1) = .err status body)
    (hcond : ¬ (status ∈ RETRYABLE_STATUS ∧ attempt + 1 < 5)) :
    embedAttempts respond jitter (fuel + 1) attempt delays =
      .error ("Embedding request failed (" ++ toString status ++ "): "
        ++ body) := by
  rw [embedAttempts, hr]
  exact if_neg hcond

theorem embedAttempts_ok_spec (respond : Nat → EmbedResponse)
    (jitter : Nat → Nat) :
    ∀ (fuel attempt : Nat) (delays0 : List Nat) (v : List (List Int))
      (ds : List Nat),
      embedAttempts respond jitter fuel attempt delays0 = .ok (v, ds) →
      ∃ k, k < fuel ∧
        ds = delays0 ++ (List.range' (attempt + 1) k).map
          (fun a => backoffMs a + jitter a) ∧
        respond (attempt + k + 1) = .ok v ∧
        (∀ a, attempt + 1 ≤ a → a ≤ attempt + k →
          ∃ s b, respond a = .err s b ∧ s ∈ RETRYABLE_STATUS) := by
  intro fuel
  induction fuel with
  | zero => intro attempt delays0 v ds h; cases h
  | succ fuel ih =>
    intro attempt delays0 v ds h
    cases hr : respond (attempt + 1) with
    | ok vecs =>
      rw [embedAttempts_succ_ok fuel delays0 hr] at h
      cases h
      refine ⟨0, by omega, by simp, by simpa using hr, ?_⟩
      intro a ha1 ha2
      omega
    | err status body =>
      by_cases hcond : status ∈ RETRYABLE_STATUS ∧ attempt + 1 < 5
      · rw [embedAttempts_succ_retry fuel delays0 hr hcond] at h
        obtain ⟨k, hk, hds, hresp, herrs⟩ := ih (attempt + 1) _ v ds h
        refine ⟨k + 1, by omega, ?_, ?_, ?_⟩
        · rw [hds, List.append_assoc]
          rw [List.range'_succ]
          rw [List.map_cons]
          rfl
        · have : attempt + 1 + k + 1 = attempt + (k + 1) + 1 := by omega
          rwa [this] at hresp
        · intro a ha1 ha2
          by_cases haeq : a = attempt + 1
          · exact ⟨status, body, haeq ▸ hr, hcond.1⟩
          · exact herrs a (by omega) (by omega)
      · rw [embedAttempts_succ_throw fuel delays0 hr hcond] at h
        cases h

/-- The C8 example environment: HTTP 429 three times, then success. -/
def respond429 : Nat → EmbedResponse := fun a =>
  if a ≤ 3 then .err 429 "rate limited" else .ok [[1]]

theorem backoff_delays_chain (jitter : Nat → Nat)
    (hj : ∀ a, jitter a < 250) (k : Nat) (hk : k ≤ 4) :
    List.Chain' (· ≤ ·) ((List.range' 1 k).map
      (fun a => backoffMs a + jitter a)) := by
  have h1 := hj 1
  have h2 := hj 2
  have h3 := hj 3
  have h4 := hj 4
  have b1 : backoffMs 1 = 500 := rfl
  have b2 : backoffMs 2 = 1000 := rfl
  have b3 : backoffMs 3 = 2000 := rfl
  have b4 : backoffMs 4 = 4000 := rfl
  interval_cases k <;>
    simp [List.range', List.Chain', b1, b2, b3, b4] <;> omega

/-- C8 (amended): a failed embedding request is retried only on
HTTP 429 or a retryable 5xx status (500, 502, 503, 504), there are at
most 5 total attempts (at most 4 retry delays), each observed delay is
`min(500·2^(attempt-1), 8000)` plus the attempt's jitter, and with
jitter below 250 ms the delays are monotonically non-decreasing; in
the example environment (429 three times, then success) the call
succeeds with exactly the three delays 507, 1007, 2007. Exhausting
retries raises the error to the caller (see the counterexample for the
run-level effect). -/
theorem C8_embed_retry_backoff :
    (∀ (respond : Nat → EmbedResponse) (jitter : Nat → Nat)
        (texts : List String) (v : List (List Int)) (ds : List Nat),
      texts ≠ [] →
      embedTexts respond jitter texts = .ok (v, ds) →
      ds.length ≤ 4 ∧
      ds = (List.range' 1 ds.length).map
        (fun a => backoffMs a + jitter a) ∧
      respond (ds.length + 1) = .ok v ∧
      (∀ a, 1 ≤ a → a ≤ ds.length →
        ∃ s b, respond a = .err s b ∧ s ∈ RETRYABLE_STATUS) ∧
      ((∀ a, jitter a < 250) → List.Chain' (· ≤ ·) ds)) ∧
    embedTexts respond429 (fun _ => 7) ["x"] =
      .ok ([[1]], [507, 1007, 2007]) := by
  constructor
  · intro respond jitter texts v ds hne h
    rw [embedTexts, if_neg (by simpa [List.length_eq_zero] using hne)] at h
    obtain ⟨k, hk, hds, hresp, herrs⟩ :=
      embedAttempts_ok_spec respond jitter 5 0 [] v ds h
    have hlen : ds.length = k := by
      rw [hds]
      simp
    refine ⟨by omega, ?_, ?_, ?_, ?_⟩
    · rw [hlen, hds]
      simp
    · rw [hlen]
      simpa using hresp
    · intro a ha1 ha2
      exact herrs a (by omega) (by omega)
    · intro hj
      rw [hds]
      simp only [List.nil_append]
      exact backoff_delays_chain jitter hj k (by omega)
  · rfl

/-- Witness for `C8_embed_retry_backoff` in the 429-three-times
environment. -/
theorem C8_embed_retry_backoff_witness :
    List.Chain' (· ≤ ·) [507, 1007, 2007] :=
  ((C8_embed_retry_backoff.1 respond429 (fun _ => 7) ["x"] [[1]]
      [507, 1007, 2007] (by decide) C8_embed_retry_backoff.2).2.2.2.2
    (fun _ => by decide))

/-! ### The Convex backend state and processing pipeline —
convex/tweetVault.ts, convex/tweetVaultInternal.ts,
convex/tweetVaultLinks.ts

The environment of a run: `dp` (JavaScript date parsing), `parseHost`
(WHATWG URL parsing), `fetchMeta` (the never-throwing
`fetchLinkMetadata`), `respond`/`jitter` indexed by embedding call
(0 = tweets, 1 = likes, 2 = links) and attempt, the fetched bookmark
window, the run timestamp `now` and the generated sync-state id.
-/

/-- A `links` row of the Convex store. -/
structure ConvexLink where
  id : String
  tweet_id : String
  url : String
  expanded_url : Option String := none
  display_url : Option String := none
  domain : Option String := none
  title : Option String := none
  description : Option String := none
  content_type : Option String := none
  fetched_at : Option String := none
  search_text : Option String := none
  fetch_error : Option String := none
  embedding : Option (List Int) := none
  deriving Repr, DecidableEq

/-- A `twitter_likes` row (only the fields the pipeline reads). -/
structure LikeRec where
  id : String := ""
  content : Option String := none
  embedding : Option (List Int) := none
  deriving Repr, DecidableEq

/-- The metadata map recorded on a `sync_state` row: the processing
counts always written by `runProcessingPipeline`, plus the fields
spread from `syncTweetVault`'s `syncMetadata`. -/
structure SyncMeta where
  tweets_embedded : Nat := 0
  likes_embedded : Nat := 0
  links_metadata_fetched : Nat := 0
  links_embedded : Nat := 0
  errors_count : Nat := 0
  fetched : Option Nat := none
  latest_tweet_id : Option String := none
  previous_latest_tweet_id : Option String := none
  checkpoint_hit : Option Bool := none
  ignore_checkpoint : Option Bool := none
  added : Option Nat := none
  updated : Option Nat := none
  deriving Repr, DecidableEq

/-- A `sync_state` row. -/
structure SyncRec where
  id : Int := 0
  last_sync_at : String
  tweets_added : Nat
  links_processed : Nat
  embeddings_generated : Nat
  sync_type : String
  error_message : Option String := none
  metadata : SyncMeta := {}
  deriving Repr, DecidableEq

/-- The whole Convex store. -/
structure VaultState where
  tweets : List Tweet := []
  likes : List LikeRec := []
  links : List ConvexLink := []
  syncStates : List SyncRec := []

/-- `getLatestSyncState`: `sync_state` ordered descending by creation,
first record — i.e. the last inserted. -/
def latestSyncState (st : VaultState) : Option SyncRec :=
  st.syncStates.getLast?

/-- `setTweetEmbedding`: patch embedding and `processed_at` on the row
(addressed through its unique `tweet_id`). -/
def setTweetEmbedding (now : String) (tid : String) (v : List Int)
    (st : VaultState) : VaultState :=
  { st with tweets := st.tweets.map (fun t =>
      if t.tweet_id = tid then
        { t with embedding := some v, processed_at := some now }
      else t) }

/-- `setLikeEmbedding`. -/
def setLikeEmbedding (lid : String) (v : List Int) (st : VaultState) :
    VaultState :=
  { st with likes := st.likes.map (fun l =>
      if l.id = lid then { l with embedding := some v } else l) }

/-- `setLinkEmbedding`. -/
def setLinkEmbedding (lid : String) (v : List Int) (st : VaultState) :
    VaultState :=
  { st with links := st.links.map (fun l =>
      if l.id = lid then { l with embedding := some v } else l) }

/-- `updateLinkMetadata` (Convex internal mutation): patches all seven
fields — an absent argument patches the field to `undefined`. -/
def updateLinkMetadataConvex (lid : String) (title description domain
    content_type fetched_at search_text fetch_error : Option String)
    (st : VaultState) : VaultState :=
  { st with links := st.links.map (fun l =>
      if l.id = lid then
        { l with title := title, description := description,
                 domain := domain, content_type := content_type,
                 fetched_at := fetched_at, search_text := search_text,
                 fetch_error := fetch_error }
      else l) }

/-- The result record of convex/tweetVault.ts `fetchLinkMetadata`:
the function catches every failure internally and returns a plain
record (possibly empty), so it never throws. -/
structure ConvexMeta where
  title : Option String := none
  description : Option String := none
  domain : Option String := none
  contentType : Option String := none

/-- `[title, description, domain, url].filter(Boolean).join(" | ")`. -/
def searchTextOf (md : ConvexMeta) (url : String) : String :=
  String.intercalate " | "
    (([md.title, md.description, md.domain, some url].filterMap id).filter
      (fun s => s ≠ ""))

/-- The per-run arguments forwarded to `runProcessingPipeline`. -/
structure ProcArgs where
  tweetLimit : Option Nat := none
  likeLimit : Option Nat := none
  linkMetaLimit : Option Nat := none
  linkEmbedLimit : Option Nat := none
  syncType : Option String := none
  syncExtra : Option SyncMeta := none
  tweetsAdded : Option Nat := none

/-- The processing summary returned by `runProcessingPipeline`. -/
structure ProcResult where
  tweets_embedded : Nat := 0
  likes_embedded : Nat := 0
  links_metadata_fetched : Nat := 0
  links_embedded : Nat := 0
  errors : List String := []
  deriving Repr, DecidableEq

/-- `\`${authorName} (@${t.author_username}): ${t.content}\``. -/
def tweetEmbedText (t : Tweet) : String :=
  (t.author_name.getD t.author_username) ++ " (@" ++ t.author_username
    ++ "): " ++ t.content

/-- `[link.title, link.description, link.domain, link.url]
.filter(Boolean).join(" | ")` for the link-embedding input. -/
def linkEmbedText (l : ConvexLink) : String :=
  String.intercalate " | "
    (([l.title, l.description, l.domain, some l.url].filterMap id).filter
      (fun s => s ≠ ""))

/-- convex/tweetVault.ts `runProcessingPipeline`: embed pending tweets,
embed pending likes, fetch metadata for pending links (one
`updateLinkMetadata` per link; the Convex `fetchLinkMetadata` never
throws, so the catch branch that records `fetch_error` is reachable
only through store failures, which are outside the model), embed
pending links, then insert exactly one `sync_state` row. An
`embedTexts` failure propagates — the run aborts with the store as it
was at that point and no `sync_state` row. Result vectors are matched
to items in request order (the service returns one vector per input). -/
def runProcessingPipeline (respond : Nat → Nat → EmbedResponse)
    (jitter : Nat → Nat → Nat) (fetchMeta : String → ConvexMeta)
    (args : ProcArgs) (now : String) (syncId : Int) (st : VaultState) :
    Except (String × VaultState) (ProcResult × VaultState) :=
  let tweetsToEmbed :=
    (st.tweets.filter (fun t => t.embedding = none)).take
      (args.tweetLimit.getD 20)
  let step1 : Except (String × VaultState) (Nat × VaultState) :=
    if tweetsToEmbed.isEmpty then .ok (0, st)
    else
      match embedTexts (respond 0) (jitter 0)
          (tweetsToEmbed.map tweetEmbedText) with
      | .error e => .error (e, st)
      | .ok (vecs, _) =>
        .ok (tweetsToEmbed.length,
          (tweetsToEmbed.zip vecs).foldl
            (fun s p => setTweetEmbedding now p.1.tweet_id p.2 s) st)
  match step1 with
  | .error e => .error e
  | .ok (c1, st1) =>
    let likesToEmbed :=
      (st1.likes.filter (fun l => l.embedding = none ∧ l.content ≠ none)).take
        (args.likeLimit.getD 20)
    let step2 : Except (String × VaultState) (Nat × VaultState) :=
      if likesToEmbed.isEmpty then .ok (0, st1)
      else
        match embedTexts (respond 1) (jitter 1)
            (likesToEmbed.map (fun l => l.content.getD "")) with
        | .error e => .error (e, st1)
        | .ok (vecs, _) =>
          .ok (likesToEmbed.length,
            (likesToEmbed.zip vecs).foldl
              (fun s p => setLikeEmbedding p.1.id p.2 s) st1)
    match step2 with
    | .error e => .error e
    | .ok (c2, st2) =>
      let linksToFetch :=
        (st2.links.filter (fun l =>
          l.title = none ∧ l.fetched_at = none ∧ l.fetch_error = none)).take
          (args.linkMetaLimit.getD 10)
      let st3 := linksToFetch.foldl
        (fun s link =>
          let url := link.expanded_url.getD link.url
          let md := fetchMeta url
          let searchText := searchTextOf md url
          updateLinkMetadataConvex link.id md.title md.description
            md.domain md.contentType (some now)
            (if searchText = "" then none else some searchText) none s)
        st2
      let c3 := linksToFetch.length
      let linksToEmbed :=
        (st3.links.filter (fun l =>
          l.embedding = none ∧ l.title ≠ none)).take
          (args.linkEmbedLimit.getD 10)
      let step4 : Except (String × VaultState) (Nat × VaultState) :=
        if linksToEmbed.isEmpty then .ok (0, st3)
        else
          match embedTexts (respond 2) (jitter 2)
              (linksToEmbed.map linkEmbedText) with
          | .error e => .error (e, st3)
          | .ok (vecs, _) =>
            .ok (linksToEmbed.length,
              (linksToEmbed.zip vecs).foldl
                (fun s p => setLinkEmbedding p.1.id p.2 s) st3)
      match step4 with
      | .error e => .error e
      | .ok (c4, st4) =>
        let meta : SyncMeta :=
          { args.syncExtra.getD {} with
            tweets_embedded := c1, likes_embedded := c2,
            links_metadata_fetched := c3, links_embedded := c4,
            errors_count := 0 }
        let st5 : VaultState :=
          { st4 with syncStates := st4.syncStates ++
              [{ id := syncId, last_sync_at := now,
                 tweets_added := args.tweetsAdded.getD 0,
                 links_processed := c3,
                 embeddings_generated := c1 + c2 + c4,
                 sync_type := args.syncType.getD "cron",
                 metadata := meta }] }
        .ok ({ tweets_embedded := c1, likes_embedded := c2,
               links_metadata_fetched := c3, links_embedded := c4,
               errors := [] }, st5)

/-- convex/tweetVaultLinks.ts `extractUrlsFromTweetDoc`, entity half:
`raw_data.legacy.entities.urls`, keeping entries with a truthy `url`
(string coercion of non-string values is outside the modelled value
space). -/
def convexEntityUrls (raw : Option Json) : List UrlEntity :=
  match ((raw.bind (·.getField "legacy")).bind
      (·.getField "entities")).bind (·.getField "urls") with
  | some (.arr items) =>
    items.filterMap (fun e =>
      match jsGetStr e "url" with
      | some u =>
        if u = "" then none
        else some
          { url := u,
            expanded_url := (jsGetStr e "expanded_url").bind
              (fun s => if s = "" then none else some s),
            display_url := (jsGetStr e "display_url").bind
              (fun s => if s = "" then none else some s) }
      | none => none)
  | _ => []

/-- The inner url loop of convex/tweetVaultLinks.ts `backfillLinks` for
one tweet: per-tweet `seen` keys, skip-set on the derived domain, an
existing `(tweet_id, url)` row skips, otherwise insert. Returns the
links table plus (inserted, skipped). -/
def backfillLinksUrlLoop (parseHost : String → Option String)
    (tid : String) :
    List UrlEntity → List String → List ConvexLink →
      List ConvexLink × Nat × Nat
  | [], _, links => (links, 0, 0)
  | u :: rest, seen, links =>
    if (tid ++ "::" ++ u.url) ∈ seen then
      let res := backfillLinksUrlLoop parseHost tid rest seen links
      (res.1, res.2.1, res.2.2 + 1)
    else
      if isSkippedDomain (extractDomain parseHost
          (jsOrElse u.expanded_url u.url)) then
        let res := backfillLinksUrlLoop parseHost tid rest
          ((tid ++ "::" ++ u.url) :: seen) links
        (res.1, res.2.1, res.2.2 + 1)
      else if links.any (fun l => l.tweet_id = tid ∧ l.url = u.url) then
        let res := backfillLinksUrlLoop parseHost tid rest
          ((tid ++ "::" ++ u.url) :: seen) links
        (res.1, res.2.1, res.2.2 + 1)
      else
        let res := backfillLinksUrlLoop parseHost tid rest
          ((tid ++ "::" ++ u.url) :: seen)
          (links ++
            [{ id := tid ++ ":" ++ u.url, tweet_id := tid,
               url := u.url, expanded_url := u.expanded_url,
               display_url := u.display_url,
               domain := extractDomain parseHost
                 (jsOrElse u.expanded_url u.url) }])
        (res.1, res.2.1 + 1, res.2.2)

/-- convex/tweetVaultLinks.ts `backfillLinks`: extract and insert links
for up to `limit` tweets that do not yet carry the
`links_extracted_at` marker, then stamp the marker on each. -/
def backfillLinks (parseHost : String → Option String) (now : String)
    (limit : Nat) (st : VaultState) : VaultState × Nat × Nat :=
  let tweetsSel :=
    (st.tweets.filter (fun t => t.links_extracted_at = none)).take limit
  tweetsSel.foldl
    (fun acc t =>
      let urls := extractUrlsFromTweetDoc (convexEntityUrls t.raw_data)
        t.content
      let res := backfillLinksUrlLoop parseHost t.tweet_id urls [] acc.1.links
      let st1 : VaultState :=
        { acc.1 with
          links := res.1,
          tweets := acc.1.tweets.map (fun r =>
            if r.tweet_id = t.tweet_id then
              { r with links_extracted_at := some now }
            else r) }
      (st1, acc.2.1 + res.2.1, acc.2.2 + res.2.2))
    (st, 0, 0)

/-- The `for (let i = 0; i < tweets.length; i += chunkSize)` upsert
loop of `syncTweetVault`; `fuel` bounds the iterations (each consumes
`chunkSize ≥ 10` tweets, so `tweets.length` is enough). -/
def upsertChunksGo (now : String) (chunkSize : Nat) :
    Nat → List Tweet → List Tweet →
      (List String × List String) × List Tweet
  | 0, _, rows => (([], []), rows)
  | fuel + 1, tweets, rows =>
    if tweets.isEmpty then (([], []), rows)
    else
      let r1 := upsertTweets now rows (tweets.take chunkSize)
      let r2 := upsertChunksGo now chunkSize fuel (tweets.drop chunkSize) r1.2
      ((r1.1.1 ++ r2.1.1, r1.1.2 ++ r2.1.2), r2.2)

/-- Chunked `upsertTweets` calls, accumulating added/updated ids. -/
def upsertChunks (now : String) (chunkSize : Nat) (tweets : List Tweet)
    (rows : List Tweet) : (List String × List String) × List Tweet :=
  upsertChunksGo now chunkSize tweets.length tweets rows

/-- The arguments of the `syncTweetVault` action (all optional). -/
structure SyncArgs where
  count : Option Nat := none
  fetchAll : Option Bool := none
  includeRaw : Option Bool := none
  maxPages : Option Nat := none
  strictCheckpoint : Option Bool := none
  ignoreCheckpoint : Option Bool := none
  upsertChunkSize : Option Nat := none
  linkExtractLimit : Option Nat := none
  tweetLimit : Option Nat := none
  likeLimit : Option Nat := none
  linkMetaLimit : Option Nat := none
  linkEmbedLimit : Option Nat := none

/-- The result of `syncTweetVault`. -/
structure SyncTweetVaultResult where
  fetched : Nat
  added : Nat
  updated : Nat
  new_count : Nat
  checkpoint_hit : Bool
  processing : ProcResult

/-- Everything `syncTweetVault` does after the strict-checkpoint guard:
chunked upserts, link backfill, and the processing pipeline (which
inserts the run's `sync_state`). -/
def syncAfterCheckpoint (dp : String → Option String)
    (respond : Nat → Nat → EmbedResponse) (jitter : Nat → Nat → Nat)
    (fetchMeta : String → ConvexMeta)
    (parseHost : String → Option String) (args : SyncArgs)
    (fetched : List FetchedTweet) (now : String) (syncId : Int)
    (st : VaultState) (prev : Option String) (collected : List Tweet × Bool) :
    Except (String × VaultState) (SyncTweetVaultResult × VaultState) :=
  let chunkSize := max 10 (min (args.upsertChunkSize.getD 100) 500)
  let upserted := upsertChunks now chunkSize collected.1 st.tweets
  let stU : VaultState := { st with tweets := upserted.2 }
  let stB := (backfillLinks parseHost now (args.linkExtractLimit.getD 200)
    stU).1
  let procArgs : ProcArgs :=
    { tweetLimit := args.tweetLimit, likeLimit := args.likeLimit,
      linkMetaLimit := args.linkMetaLimit,
      linkEmbedLimit := args.linkEmbedLimit,
      syncType := some "cron",
      syncExtra := some
        { fetched := some fetched.length,
          latest_tweet_id := fetched.head?.bind (·.id),
          previous_latest_tweet_id := prev,
          checkpoint_hit := some collected.2,
          ignore_checkpoint := some (args.ignoreCheckpoint.getD false),
          added := some upserted.1.1.length,
          updated := some upserted.1.2.length },
      tweetsAdded := some upserted.1.1.length }
  match runProcessingPipeline respond jitter fetchMeta procArgs now syncId
      stB with
  | .error e => .error e
  | .ok (proc, stP) =>
    .ok ({ fetched := fetched.length, added := upserted.1.1.length,
           updated := upserted.1.2.length,
           new_count := collected.1.length,
           checkpoint_hit := collected.2, processing := proc }, stP)

/-- convex/tweetVault.ts `syncTweetVault`: resolve the checkpoint from
the latest `sync_state` (unless `ignoreCheckpoint`), consume the
fetched window up to the checkpoint, fail under `strictCheckpoint`
when a truthy checkpoint id was never encountered — before any upsert,
any link write and any `sync_state` insert — and otherwise run the
rest of the pipeline. -/
def syncTweetVault (dp : String → Option String)
    (respond : Nat → Nat → EmbedResponse) (jitter : Nat → Nat → Nat)
    (fetchMeta : String → ConvexMeta)
    (parseHost : String → Option String) (args : SyncArgs)
    (fetched : List FetchedTweet) (now : String) (syncId : Int)
    (st : VaultState) :
    Except (String × VaultState) (SyncTweetVaultResult × VaultState) :=
  let includeRaw := args.includeRaw.getD false
  let previousLatestTweetId : Option String :=
    if args.ignoreCheckpoint.getD false then none
    else (latestSyncState st).bind (fun s => s.metadata.latest_tweet_id)
  let collected := collectNewTweets dp includeRaw now
    previousLatestTweetId fetched
  if jsTruthy previousLatestTweetId ∧ ¬ collected.2 ∧
      args.strictCheckpoint.getD false ∧
      ¬ args.ignoreCheckpoint.getD false then
    .error ("Checkpoint not found in fetched bookmarks", st)
  else
    syncAfterCheckpoint dp respond jitter fetchMeta parseHost args fetched
      now syncId st previousLatestTweetId collected

theorem syncTweetVault_eq (dp : String → Option String)
    (respond : Nat → Nat → EmbedResponse) (jitter : Nat → Nat → Nat)
    (fetchMeta : String → ConvexMeta)
    (parseHost : String → Option String) (args : SyncArgs)
    (fetched : List FetchedTweet) (now : String) (syncId : Int)
    (st : VaultState) :
    syncTweetVault dp respond jitter fetchMeta parseHost args fetched now
        syncId st =
      if jsTruthy (if args.ignoreCheckpoint.getD false then none
            else (latestSyncState st).bind
              (fun s => s.metadata.latest_tweet_id)) ∧
          ¬ (collectNewTweets dp (args.includeRaw.getD false) now
            (if args.ignoreCheckpoint.getD false then none
              else (latestSyncState st).bind
                (fun s => s.metadata.latest_tweet_id)) fetched).2 ∧
          args.strictCheckpoint.getD false ∧
          ¬ args.ignoreCheckpoint.getD false then
        .error ("Checkpoint not found in fetched bookmarks", st)
      else
        syncAfterCheckpoint dp respond jitter fetchMeta parseHost args
          fetched now syncId st
          (if args.ignoreCheckpoint.getD false then none
            else (latestSyncState st).bind
              (fun s => s.metadata.latest_tweet_id))
          (collectNewTweets dp (args.includeRaw.getD false) now
            (if args.ignoreCheckpoint.getD false then none
              else (latestSyncState st).bind
                (fun s => s.metadata.latest_tweet_id)) fetched) := rfl

/-- C4: in strict-checkpoint mode (and not ignore-checkpoint mode),
when the prior checkpoint id is truthy and never appears in the
fetched window, `syncTweetVault` fails with the checkpoint error and
the store is exactly the input store: no posts upserted, no links
written, and no `sync_state` record — so the next run resumes from the
same checkpoint. -/
theorem C4_strict_checkpoint_atomic (dp : String → Option String)
    (respond : Nat → Nat → EmbedResponse) (jitter : Nat → Nat → Nat)
    (fetchMeta : String → ConvexMeta)
    (parseHost : String → Option String) (args : SyncArgs)
    (fetched : List FetchedTweet) (now : String) (syncId : Int)
    (st : VaultState) (p : String)
    (hstrict : args.strictCheckpoint = some true)
    (hignore : args.ignoreCheckpoint.getD false = false)
    (hprev : (latestSyncState st).bind
      (fun s => s.metadata.latest_tweet_id) = some p)
    (hpne : p ≠ "")
    (hmiss : ∀ t ∈ fetched, t.id ≠ some p) :
    syncTweetVault dp respond jitter fetchMeta parseHost args fetched now
        syncId st =
      .error ("Checkpoint not found in fetched bookmarks", st) := by
  rw [syncTweetVault_eq]
  rw [if_pos]
  refine ⟨?_, ?_, ?_, ?_⟩
  · rw [hignore]
    simp only [if_neg Bool.false_ne_true, hprev]
    simpa [jsTruthy] using hpne
  · rw [hignore]
    simp only [if_neg Bool.false_ne_true, hprev]
    intro hany
    rw [(collectNewTweets_spec dp (args.includeRaw.getD false) now p hpne
      fetched).2] at hany
    obtain ⟨t, ht, hid⟩ := List.any_eq_true.mp hany
    exact hmiss t ht (by simpa using hid)
  · rw [hstrict]; rfl
  · rw [hignore]; simp

/-- The C4 witness store: one prior sync whose checkpoint id is "9". -/
def c4State : VaultState :=
  { syncStates :=
      [{ last_sync_at := "t0", tweets_added := 0, links_processed := 0,
         embeddings_generated := 0, sync_type := "cron",
         metadata := { latest_tweet_id := some "9" } }] }

/-- The C4 witness window: one item whose id is not the checkpoint. -/
def c4Window : List FetchedTweet :=
  [{ id := some "8", author_username := some "u", text := some "t" }]

/-- Witness for `C4_strict_checkpoint_atomic` on the concrete store
and window. -/
theorem C4_strict_checkpoint_atomic_witness :
    syncTweetVault (fun _ => none) (fun _ _ => .err 500 "x")
        (fun _ _ => 0) (fun _ => {}) (fun _ => none)
        { strictCheckpoint := some true } c4Window "t1" 1 c4State =
      .error ("Checkpoint not found in fetched bookmarks", c4State) :=
  C4_strict_checkpoint_atomic (fun _ => none) (fun _ _ => .err 500 "x")
    (fun _ _ => 0) (fun _ => {}) (fun _ => none)
    { strictCheckpoint := some true } c4Window "t1" 1 c4State "9"
    rfl rfl rfl (by decide) (by decide)

/-- The C8 counterexample store: a single tweet awaiting embedding and
no sync history. -/
def c8State : VaultState :=
  { tweets :=
      [{ tweet_id := "1", author_username := "u", content := "hello" }] }

/-- C8 (counterexample): with the embedding service failing with
HTTP 500 on every attempt, exhausting retries does NOT fail only that
batch — `runProcessingPipeline` aborts with the propagated error, the
remaining stages never run and no `sync_state` row is recorded, so the
failure is fatal to the overall processing run, contrary to the
claim's final clause. -/
theorem C8_embed_failure_aborts_run :
    runProcessingPipeline (fun _ _ => .err 500 "boom") (fun _ _ => 0)
        (fun _ => {}) {} "T" 1 c8State =
      .error ("Embedding request failed (500): boom", c8State) ∧
    c8State.syncStates = [] :=
  ⟨rfl, rfl⟩

end TweetVault
